import Mathlib

/-!
Verification of the risk-api bytecode analysis engine.

This file is a shallow embedding of the core analysis pipeline of the
risk-api repository (Python) into Lean 4:

- `src/risk_api/analysis/opcodes.py`      — the EVM opcode table,
- `src/risk_api/analysis/disassembler.py` — hex string to instruction list,
- `src/risk_api/analysis/selectors.py`    — 4-byte selector tables,
- `src/risk_api/analysis/patterns.py`     — the seven pattern detectors,
- `src/risk_api/analysis/scoring.py`      — capped weighted scoring,
- `src/risk_api/analysis/reputation.py`   — deployer reputation findings,
- `src/risk_api/analysis/engine.py`       — proxy resolution and orchestration.

Python byte strings are modelled as `List Nat` (each entry one byte),
Python text strings as Lean `String` (operated on through `String.data`,
a `List Char`), dicts with insertion order as association lists, and the
outbound RPC / explorer HTTP calls as explicit oracle records.
Network failures (`RPCError`) are `Except` errors of the oracle.
-/

namespace RiskApi

/-! ## Basic string helpers (Python string operations on `List Char`) -/

/-- Python `str.strip()` whitespace test, restricted to the ASCII
whitespace characters relevant to hex payloads. -/
def isPySpace (c : Char) : Bool :=
  c = ' ' || c = '\t' || c = '\n' || c = '\r' || c = '\x0b' || c = '\x0c'

/-- Python `s.strip()`: drop whitespace from both ends. -/
def pyStrip (s : List Char) : List Char :=
  ((s.dropWhile isPySpace).reverse.dropWhile isPySpace).reverse

/-- Value of one hexadecimal digit, `none` for a non-hex character. -/
def hexDigit? (c : Char) : Option Nat :=
  if '0' ≤ c ∧ c ≤ '9' then some (c.toNat - 48)
  else if 'a' ≤ c ∧ c ≤ 'f' then some (c.toNat - 87)
  else if 'A' ≤ c ∧ c ≤ 'F' then some (c.toNat - 55)
  else none

/-- Python `bytes.fromhex`: pairs of hex digits to bytes; fails on an odd
number of digits or a non-hex character. -/
def hexPairs : List Char → Option (List Nat)
  | [] => some []
  | [_] => none
  | a :: b :: t =>
    match hexDigit? a, hexDigit? b with
    | some x, some y => (hexPairs t).map (fun r => (16 * x + y) :: r)
    | _, _ => none

/-- Hexadecimal digit character (lowercase), for `bytes.hex()`. -/
def hexChar (n : Nat) : Char :=
  if n < 10 then Char.ofNat (48 + n) else Char.ofNat (87 + n)

/-- Python `bytes.hex()`: lowercase hex rendering of a byte string. -/
def bytesToHex (bs : List Nat) : List Char :=
  bs.flatMap (fun b => [hexChar (b / 16), hexChar (b % 16)])

/-- Big-endian 32-byte string of a numeric constant, as produced by
`bytes.fromhex` on a 64-digit literal. -/
def bytes32 (n : Nat) : List Nat :=
  (List.range 32).map (fun i => n / 256 ^ (31 - i) % 256)

/-! ## Opcode table — `opcodes.py` -/

/-- Two-digit uppercase hex of a byte, for Python `f"UNKNOWN_{opcode:02X}"`. -/
def hexCharUpper (n : Nat) : Char :=
  if n < 10 then Char.ofNat (48 + n) else Char.ofNat (55 + n)

/-- The `OPCODES` dict of `opcodes.py`: byte value to
`(mnemonic, operand size in bytes)`, insertion order preserved. -/
def OPCODES : List (Nat × String × Nat) :=
  [(0x00, ("STOP", 0)), (0x01, ("ADD", 0)), (0x02, ("MUL", 0)),
   (0x03, ("SUB", 0)), (0x04, ("DIV", 0)), (0x05, ("SDIV", 0)),
   (0x06, ("MOD", 0)), (0x07, ("SMOD", 0)), (0x08, ("ADDMOD", 0)),
   (0x09, ("MULMOD", 0)), (0x0A, ("EXP", 0)), (0x0B, ("SIGNEXTEND", 0)),
   (0x10, ("LT", 0)), (0x11, ("GT", 0)), (0x12, ("SLT", 0)),
   (0x13, ("SGT", 0)), (0x14, ("EQ", 0)), (0x15, ("ISZERO", 0)),
   (0x16, ("AND", 0)), (0x17, ("OR", 0)), (0x18, ("XOR", 0)),
   (0x19, ("NOT", 0)), (0x1A, ("BYTE", 0)), (0x1B, ("SHL", 0)),
   (0x1C, ("SHR", 0)), (0x1D, ("SAR", 0)),
   (0x20, ("SHA3", 0)),
   (0x30, ("ADDRESS", 0)), (0x31, ("BALANCE", 0)), (0x32, ("ORIGIN", 0)),
   (0x33, ("CALLER", 0)), (0x34, ("CALLVALUE", 0)), (0x35, ("CALLDATALOAD", 0)),
   (0x36, ("CALLDATASIZE", 0)), (0x37, ("CALLDATACOPY", 0)),
   (0x38, ("CODESIZE", 0)), (0x39, ("CODECOPY", 0)), (0x3A, ("GASPRICE", 0)),
   (0x3B, ("EXTCODESIZE", 0)), (0x3C, ("EXTCODECOPY", 0)),
   (0x3D, ("RETURNDATASIZE", 0)), (0x3E, ("RETURNDATACOPY", 0)),
   (0x3F, ("EXTCODEHASH", 0)),
   (0x40, ("BLOCKHASH", 0)), (0x41, ("COINBASE", 0)), (0x42, ("TIMESTAMP", 0)),
   (0x43, ("NUMBER", 0)), (0x44, ("PREVRANDAO", 0)), (0x45, ("GASLIMIT", 0)),
   (0x46, ("CHAINID", 0)), (0x47, ("SELFBALANCE", 0)), (0x48, ("BASEFEE", 0)),
   (0x49, ("BLOBHASH", 0)), (0x4A, ("BLOBBASEFEE", 0)),
   (0x50, ("POP", 0)), (0x51, ("MLOAD", 0)), (0x52, ("MSTORE", 0)),
   (0x53, ("MSTORE8", 0)), (0x54, ("SLOAD", 0)), (0x55, ("SSTORE", 0)),
   (0x56, ("JUMP", 0)), (0x57, ("JUMPI", 0)), (0x58, ("PC", 0)),
   (0x59, ("MSIZE", 0)), (0x5A, ("GAS", 0)), (0x5B, ("JUMPDEST", 0)),
   (0x5C, ("TLOAD", 0)), (0x5D, ("TSTORE", 0)), (0x5E, ("MCOPY", 0)),
   (0x5F, ("PUSH0", 0))]
  ++ (List.range 32).map (fun i => (0x60 + i, ("PUSH" ++ toString (i + 1), i + 1)))
  ++ (List.range 16).map (fun i => (0x80 + i, ("DUP" ++ toString (i + 1), 0)))
  ++ (List.range 16).map (fun i => (0x90 + i, ("SWAP" ++ toString (i + 1), 0)))
  ++ [(0xA0, ("LOG0", 0)), (0xA1, ("LOG1", 0)), (0xA2, ("LOG2", 0)),
      (0xA3, ("LOG3", 0)), (0xA4, ("LOG4", 0)),
      (0xF0, ("CREATE", 0)), (0xF1, ("CALL", 0)), (0xF2, ("CALLCODE", 0)),
      (0xF3, ("RETURN", 0)), (0xF4, ("DELEGATECALL", 0)), (0xF5, ("CREATE2", 0)),
      (0xFA, ("STATICCALL", 0)), (0xFD, ("REVERT", 0)), (0xFE, ("INVALID", 0)),
      (0xFF, ("SELFDESTRUCT", 0))]

/-- The `lookup` function of `opcodes.py`: table entry, or
`("UNKNOWN_XX", 0)` for an undefined byte. -/
def lookup (opcode : Nat) : String × Nat :=
  match OPCODES.lookup opcode with
  | some v => v
  | none =>
    ("UNKNOWN_" ++ String.mk [hexCharUpper (opcode / 16), hexCharUpper (opcode % 16)], 0)

/-! ## Disassembler — `disassembler.py` -/

/-- The `Instruction` dataclass of `disassembler.py`. -/
structure Instruction where
  offset : Nat
  opcode : Nat
  name : String
  operand : List Nat
  deriving DecidableEq, Repr

/-- The scanning loop of `disassemble`: at each byte look up the operand
size, take the (possibly truncated) operand, and advance past the nominal
operand size.  The structural `fuel` argument bounds the number of loop
iterations; it is instantiated with the length of the byte string, which
the loop index can never exceed (every iteration consumes at least one
byte). -/
def disasmGo : Nat → Nat → List Nat → List Instruction
  | 0, _, _ => []
  | _ + 1, _, [] => []
  | fuel + 1, off, b :: rest =>
    let n := (lookup b).2
    if n > 0 then
      ⟨off, b, (lookup b).1, rest.take n⟩ :: disasmGo fuel (off + 1 + n) (rest.drop n)
    else
      ⟨off, b, (lookup b).1, []⟩ :: disasmGo fuel (off + 1) rest

/-- The while loop of `disassemble` over a raw byte string, starting at
offset `off`. -/
def disasmBytes (off : Nat) (raw : List Nat) : List Instruction :=
  disasmGo raw.length off raw

theorem disasmGo_nil (fuel off : Nat) : disasmGo fuel off [] = [] := by
  cases fuel <;> rfl

theorem disasmGo_cons (fuel off b : Nat) (rest : List Nat) :
    disasmGo (fuel + 1) off (b :: rest) =
      if (lookup b).2 > 0 then
        ⟨off, b, (lookup b).1, rest.take (lookup b).2⟩
          :: disasmGo fuel (off + 1 + (lookup b).2) (rest.drop (lookup b).2)
      else ⟨off, b, (lookup b).1, []⟩ :: disasmGo fuel (off + 1) rest := rfl

theorem disasmBytes_nil (off : Nat) : disasmBytes off [] = [] := rfl

/-- The hex parsing stage of `disassemble`: strip whitespace, strip an
optional `0x` or `0X`, decode hex digit pairs. -/
def hexBytes (s : String) : Option (List Nat) :=
  let h := pyStrip s.data
  let h := if h.take 2 = ['0', 'x'] ∨ h.take 2 = ['0', 'X'] then h.drop 2 else h
  hexPairs h

/-- The `disassemble` function of `disassembler.py`.  Returns `none` on a
hex parse failure (Python raises `ValueError` there). -/
def disassemble (s : String) : Option (List Instruction) :=
  let h := pyStrip s.data
  let h := if h.take 2 = ['0', 'x'] ∨ h.take 2 = ['0', 'X'] then h.drop 2 else h
  if h = [] then some []
  else (hexPairs h).map (disasmBytes 0)

theorem disassemble_eq_hexBytes (s : String) :
    disassemble s = (hexBytes s).map (disasmBytes 0) := by
  unfold disassemble hexBytes
  by_cases h : (if (pyStrip s.data).take 2 = ['0', 'x'] ∨ (pyStrip s.data).take 2 = ['0', 'X']
      then (pyStrip s.data).drop 2 else pyStrip s.data) = []
  · simp [h, hexPairs, disasmBytes_nil]
  · simp [h]

/-! ## Round trip of the disassembler (claim C1) -/

/-- Nominal operand size of an emitted instruction, from the opcode table
(the disassembler advances past this many operand bytes even when the
emitted operand was truncated). -/
def nominalSize (i : Instruction) : Nat := (lookup i.opcode).2

/-- Re-emit `(opcode, operand)` pairs in order, padding a truncated
operand with zeros to its nominal length. -/
def reemit (l : List Instruction) : List Nat :=
  l.flatMap fun i =>
    i.opcode :: (i.operand ++ List.replicate (nominalSize i - i.operand.length) 0)

/-- Total nominal byte length of an instruction list: one opcode byte
plus the nominal operand size, per instruction. -/
def nominalLen (l : List Instruction) : Nat :=
  (l.map (fun i => 1 + nominalSize i)).sum

/-- Adjacency of emitted instructions: the next instruction starts right
after the nominal extent of the previous one. -/
def offsetRel (a b : Instruction) : Prop :=
  b.offset = a.offset + 1 + nominalSize a

theorem reemit_nil : reemit [] = [] := rfl

theorem reemit_cons (i : Instruction) (l : List Instruction) :
    reemit (i :: l) =
      (i.opcode :: (i.operand ++ List.replicate (nominalSize i - i.operand.length) 0))
        ++ reemit l := by
  simp [reemit]

theorem nominalLen_nil : nominalLen [] = 0 := rfl

theorem nominalLen_cons (i : Instruction) (l : List Instruction) :
    nominalLen (i :: l) = 1 + nominalSize i + nominalLen l := by
  simp [nominalLen]

theorem reemit_disasmGo (fuel : Nat) : ∀ (off : Nat) (raw : List Nat),
    raw.length ≤ fuel →
    reemit (disasmGo fuel off raw) =
      raw ++ List.replicate (nominalLen (disasmGo fuel off raw) - raw.length) 0 := by
  induction fuel with
  | zero =>
    intro off raw h
    have hr : raw = [] := List.eq_nil_of_length_eq_zero (Nat.le_zero.mp h)
    subst hr
    simp [disasmGo_nil, reemit_nil, nominalLen_nil]
  | succ fuel ih =>
    intro off raw h
    cases raw with
    | nil => simp [disasmGo_nil, reemit_nil, nominalLen_nil]
    | cons b rest =>
      have hrest : rest.length ≤ fuel := by
        simp only [List.length_cons] at h; omega
      by_cases hp : (lookup b).2 > 0
      · rw [disasmGo_cons, if_pos hp, reemit_cons, nominalLen_cons]
        dsimp only [nominalSize]
        have hdl : (rest.drop (lookup b).2).length ≤ fuel := by
          simp only [List.length_drop]; omega
        rw [ih (off + 1 + (lookup b).2) (rest.drop (lookup b).2) hdl, List.length_cons]
        rcases Nat.le_total (lookup b).2 rest.length with hle | hge
        · have htk : (rest.take (lookup b).2).length = (lookup b).2 := by
            simp [List.length_take, Nat.min_eq_left hle]
          rw [htk, Nat.sub_self]
          simp only [List.replicate_zero, List.append_nil, List.length_drop,
            List.cons_append]
          have hcount :
              nominalLen (disasmGo fuel (off + 1 + (lookup b).2) (rest.drop (lookup b).2))
                  - (rest.length - (lookup b).2)
                = 1 + (lookup b).2
                    + nominalLen (disasmGo fuel (off + 1 + (lookup b).2)
                        (rest.drop (lookup b).2))
                    - (rest.length + 1) := by
            omega
          rw [hcount, ← List.append_assoc, List.take_append_drop]
        · have hdrop : rest.drop (lookup b).2 = [] := List.drop_eq_nil_of_le hge
          have htake : rest.take (lookup b).2 = rest := List.take_of_length_le hge
          have hcount : 1 + (lookup b).2 + nominalLen ([] : List Instruction)
              - (rest.length + 1) = (lookup b).2 - rest.length := by
            rw [nominalLen_nil]; omega
          rw [hdrop, htake, disasmGo_nil, hcount]
          simp [nominalLen_nil]
      · rw [disasmGo_cons, if_neg hp, reemit_cons, nominalLen_cons]
        dsimp only [nominalSize]
        have hn0 : (lookup b).2 = 0 := Nat.eq_zero_of_not_pos hp
        rw [ih (off + 1) rest hrest, hn0, List.length_cons]
        have hcount : nominalLen (disasmGo fuel (off + 1) rest) - rest.length
            = 1 + 0 + nominalLen (disasmGo fuel (off + 1) rest) - (rest.length + 1) := by
          omega
        rw [hcount]
        simp

theorem disasmGo_head_offset (fuel off : Nat) (raw : List Nat) :
    ∀ i, (disasmGo fuel off raw).head? = some i → i.offset = off := by
  intro i h
  cases fuel with
  | zero =>
    rw [show disasmGo 0 off raw = [] from rfl] at h
    exact absurd h (by simp)
  | succ fuel =>
  cases raw with
  | nil =>
    rw [disasmGo_nil] at h
    exact absurd h (by simp)
  | cons b rest =>
    rw [disasmGo_cons] at h
    by_cases hp : (lookup b).2 > 0
    · rw [if_pos hp] at h
      simp only [List.head?_cons, Option.some.injEq] at h
      rw [← h]
    · rw [if_neg hp] at h
      simp only [List.head?_cons, Option.some.injEq] at h
      rw [← h]

theorem disasmGo_chain (fuel : Nat) : ∀ (off : Nat) (raw : List Nat),
    List.Chain' offsetRel (disasmGo fuel off raw) := by
  induction fuel with
  | zero => intro off raw; exact List.chain'_nil
  | succ fuel ih =>
    intro off raw
    cases raw with
    | nil => rw [disasmGo_nil]; exact List.chain'_nil
    | cons b rest =>
      rw [disasmGo_cons]
      by_cases hp : (lookup b).2 > 0
      · rw [if_pos hp, List.chain'_cons']
        refine ⟨fun y hy => ?_, ih _ _⟩
        have hoff := disasmGo_head_offset fuel (off + 1 + (lookup b).2)
          (rest.drop (lookup b).2) y (Option.mem_def.mp hy)
        show y.offset = _ + 1 + nominalSize _
        dsimp only [nominalSize]
        rw [hoff]
      · rw [if_neg hp, List.chain'_cons']
        refine ⟨fun y hy => ?_, ih _ _⟩
        have hoff := disasmGo_head_offset fuel (off + 1) rest y (Option.mem_def.mp hy)
        have hn0 : (lookup b).2 = 0 := Nat.eq_zero_of_not_pos hp
        show y.offset = _ + 1 + nominalSize _
        dsimp only [nominalSize]
        rw [hoff, hn0]

/-- Claim C1 — disassembler round trip: for every byte string given as an
even-length hex string (optionally 0x-prefixed, case-insensitive),
re-emitting the (opcode, operand) pairs of the instructions returned by
`disassemble` in order, padding a truncated trailing PUSH operand with
zeros to its nominal length, produces exactly the input bytes followed by
the zero padding; and every emitted instruction at offset `i` with
nominal operand size `n` is followed by the next instruction at offset
`i + 1 + n`, with the first instruction at offset 0, so the instructions
tile the input. -/
theorem disassemble_round_trip (s : String) (raw : List Nat) (instrs : List Instruction)
    (hb : hexBytes s = some raw) (hd : disassemble s = some instrs) :
    reemit instrs = raw ++ List.replicate (nominalLen instrs - raw.length) 0 ∧
    List.Chain' offsetRel instrs ∧
    (∀ i, instrs.head? = some i → i.offset = 0) := by
  rw [disassemble_eq_hexBytes, hb, Option.map_some'] at hd
  have hi : instrs = disasmBytes 0 raw := (Option.some.injEq _ _ ▸ hd).symm
  subst hi
  exact ⟨reemit_disasmGo raw.length 0 raw le_rfl, disasmGo_chain raw.length 0 raw,
    disasmGo_head_offset raw.length 0 raw⟩

/-- Witness for C1 at the concrete input "0x62ff": a PUSH3 whose operand
is truncated to one byte; re-emission appends two padding zeros. -/
theorem disassemble_round_trip_witness :
    hexBytes "0x62ff" = some [0x62, 0xff] ∧
    disassemble "0x62ff" = some [⟨0, 0x62, "PUSH3", [0xff]⟩] ∧
    (reemit [⟨0, 0x62, "PUSH3", [0xff]⟩]
        = [0x62, 0xff] ++ List.replicate (nominalLen [⟨0, 0x62, "PUSH3", [0xff]⟩] - 2) 0 ∧
      List.Chain' offsetRel [⟨0, 0x62, "PUSH3", [0xff]⟩] ∧
      (∀ i, ([⟨0, 0x62, "PUSH3", [0xff]⟩] : List Instruction).head? = some i →
        i.offset = 0)) :=
  ⟨by decide, by decide,
    disassemble_round_trip "0x62ff" [0x62, 0xff] [⟨0, 0x62, "PUSH3", [0xff]⟩]
      (by decide) (by decide)⟩

/-! ## Selector tables — `selectors.py` -/

/-- The `MALICIOUS_SELECTORS` dict: 4-byte selector to signature. -/
def MALICIOUS_SELECTORS : List (List Nat × String) :=
  [([0x40, 0xc1, 0x0f, 0x19], "mint(address,uint256)"),
   ([0xa0, 0x71, 0x2d, 0x68], "mint(uint256)"),
   ([0x44, 0x33, 0x7e, 0xa1], "blacklist(address)"),
   ([0x44, 0xd7, 0x5f, 0xa5], "addToBlacklist(address)"),
   ([0x69, 0xfe, 0x0e, 0x2d], "setFee(uint256)"),
   ([0xc0, 0xb0, 0xfd, 0xa2], "setTaxFee(uint256)"),
   ([0xec, 0x28, 0x43, 0x8a], "setMaxTxAmount(uint256)"),
   ([0xb6, 0xc5, 0x23, 0x24], "setMaxWalletSize(uint256)"),
   ([0x84, 0x56, 0xcb, 0x59], "pause()")]

/-- The `SUSPICIOUS_SELECTORS` dict. -/
def SUSPICIOUS_SELECTORS : List (List Nat × String) :=
  [([0xa2, 0x2c, 0xb4, 0x65], "setApprovalForAll(address,bool)"),
   ([0x71, 0x50, 0x18, 0xa6], "renounceOwnership()"),
   ([0xf2, 0xfd, 0xe3, 0x8b], "transferOwnership(address)"),
   ([0x3c, 0xcf, 0xd6, 0x0b], "withdraw()"),
   ([0xe0, 0x1a, 0xf9, 0x2c], "setSwapEnabled(bool)"),
   ([0x43, 0x78, 0x23, 0xec], "excludeFromFee(address)")]

/-- The `ERC20_SELECTORS` dict (reference only). -/
def ERC20_SELECTORS : List (List Nat × String) :=
  [([0x18, 0x16, 0x0d, 0xdd], "totalSupply()"),
   ([0x70, 0xa0, 0x82, 0x31], "balanceOf(address)"),
   ([0xa9, 0x05, 0x9c, 0xbb], "transfer(address,uint256)"),
   ([0xdd, 0x62, 0xed, 0x3e], "allowance(address,address)"),
   ([0x09, 0x5e, 0xa7, 0xb3], "approve(address,uint256)"),
   ([0x23, 0xb8, 0x72, 0xdd], "transferFrom(address,address,uint256)")]

/-- The `extract_selectors` function: operands of PUSH4 instructions of
exact length 4.  Python collects them into a hash set whose iteration
order is unspecified; the embedding canonicalises the set as a
duplicate-free list. -/
def extract_selectors (instructions : List Instruction) : List (List Nat) :=
  ((instructions.filter
      (fun i => i.name == "PUSH4" && i.operand.length == 4)).map (fun i => i.operand)).dedup

/-- The `find_malicious_selectors` function: the malicious table
restricted to the given selector set. -/
def find_malicious_selectors (selectors : List (List Nat)) : List (List Nat × String) :=
  selectors.filterMap (fun s => (MALICIOUS_SELECTORS.lookup s).map (fun v => (s, v)))

/-- The `find_suspicious_selectors` function. -/
def find_suspicious_selectors (selectors : List (List Nat)) : List (List Nat × String) :=
  selectors.filterMap (fun s => (SUSPICIOUS_SELECTORS.lookup s).map (fun v => (s, v)))

/-! ## Findings and proxy slot constants — `patterns.py` -/

/-- The `Severity` enum of `patterns.py`. -/
inductive Severity where
  | info
  | medium
  | high
  | critical
  deriving DecidableEq, Repr

/-- The `Finding` dataclass of `patterns.py`.  `points` is a `Nat`: the
data model declares it unsigned and every finding constructed in the
code has a nonnegative literal point value. -/
structure Finding where
  detector : String
  severity : Severity
  title : String
  description : String
  points : Nat
  offset : Option Nat := none
  deriving DecidableEq, Repr

def EIP_1967_IMPL_SLOT : List Nat :=
  bytes32 0x360894a13ba1a3210667c828492db98dca3e2076cc3735a920a3ca505d382bbc

def EIP_1967_ADMIN_SLOT : List Nat :=
  bytes32 0xb53127684a568b3173ae13b9f8a6016e243e63b6e8ee1178d6a717850b5d6103

def EIP_1822_SLOT : List Nat :=
  bytes32 0xc5f16f0fcc639fa48a6947836d9850f504798523bf8c9a3a87d5876cf622bcf7

def OZ_IMPL_SLOT : List Nat :=
  bytes32 0x7050c9e0f4ca769c69bd3a8ef740bc37934f8e2c036e5a723fd8ee048ed3f8c3

def OZ_ADMIN_SLOT : List Nat :=
  bytes32 0x10d6a54a4754c8869d6886b5f5d7fbfa5b4522237ea5c60d11bc4e7a1ff9390b

/-- The `PROXY_SLOTS` set (membership tests only). -/
def PROXY_SLOTS : List (List Nat) :=
  [EIP_1967_IMPL_SLOT, EIP_1967_ADMIN_SLOT, EIP_1822_SLOT, OZ_IMPL_SLOT, OZ_ADMIN_SLOT]

/-- The `_has_proxy_slots` helper: some PUSH32 operand is a known proxy
storage slot constant. -/
def has_proxy_slots (instructions : List Instruction) : Bool :=
  instructions.any (fun i => i.name == "PUSH32" && PROXY_SLOTS.contains i.operand)

/-! ## The seven detectors — `patterns.py` -/

/-- The `detect_selfdestruct` detector: one finding at the first
occurrence of opcode 0xFF. -/
def detect_selfdestruct (instructions : List Instruction) : List Finding :=
  match instructions.find? (fun i => i.opcode == 0xFF) with
  | some i =>
    [⟨"selfdestruct", Severity.critical, "SELFDESTRUCT opcode found",
      "Contract contains SELFDESTRUCT which allows the owner to destroy the contract and drain all funds.",
      30, some i.offset⟩]
  | none => []

/-- The finding emitted by `detect_delegatecall`, depending on proxy
context. -/
def dcFinding (is_proxy : Bool) (off : Nat) : Finding :=
  if is_proxy then
    ⟨"delegatecall", Severity.info, "DELEGATECALL in proxy pattern",
     "Contract uses DELEGATECALL with standard proxy storage slots (EIP-1967/1822). This is expected proxy behavior.",
     10, some off⟩
  else
    ⟨"delegatecall", Severity.high, "Raw DELEGATECALL without proxy pattern",
     "Contract uses DELEGATECALL without recognized proxy storage slots. This could allow arbitrary code execution.",
     15, some off⟩

/-- The scanning loop of `detect_delegatecall`, carrying the
`has_delegatecall` flag of the source. -/
def dcLoop (is_proxy : Bool) : Bool → List Instruction → List Finding
  | _, [] => []
  | hasDC, i :: rest =>
    if i.opcode == 0xF4 && !hasDC then
      dcFinding is_proxy i.offset :: dcLoop is_proxy true rest
    else
      dcLoop is_proxy hasDC rest

/-- The `detect_delegatecall` detector. -/
def detect_delegatecall (instructions : List Instruction) : List Finding :=
  dcLoop (has_proxy_slots instructions) false instructions

/-- The scanning loop of `detect_reentrancy_risk`: a CALL (0xF1)
followed by an SSTORE (0x55) within the next 20 instructions. -/
def reentrancyScan : List Instruction → List Finding
  | [] => []
  | i :: rest =>
    if i.opcode == 0xF1 then
      match (rest.take 20).find? (fun j => j.opcode == 0x55) with
      | some j =>
        let o1 := i.offset
        let o2 := j.offset
        [⟨"reentrancy", Severity.medium, "Potential reentrancy: CALL before SSTORE",
          s!"External CALL at offset {o1} is followed by SSTORE at offset {o2}. State changes after external calls can enable reentrancy attacks.",
          10, some i.offset⟩]
      | none => reentrancyScan rest
    else reentrancyScan rest

/-- The `detect_reentrancy_risk` detector. -/
def detect_reentrancy_risk (instructions : List Instruction) : List Finding :=
  reentrancyScan instructions

/-- The `detect_proxy_patterns` detector. -/
def detect_proxy_patterns (instructions : List Instruction) : List Finding :=
  if has_proxy_slots instructions then
    [⟨"proxy", Severity.info, "Proxy contract detected",
      "Contract uses standard proxy storage slots (EIP-1967 or EIP-1822). The implementation contract should also be analyzed.",
      10, none⟩]
  else []

/-- The comparison opcodes of `detect_honeypot_patterns`:
LT, GT, SLT, SGT, EQ. -/
def comparisonOps : List Nat := [0x10, 0x11, 0x12, 0x13, 0x14]

/-- The honeypot finding. -/
def honeypotFinding (off : Nat) : Finding :=
  ⟨"honeypot", Severity.high, "Potential honeypot: conditional REVERT in transfer path",
   "Contract has transfer functions with conditional REVERT patterns that could selectively block token transfers for certain addresses.",
   25, some off⟩

/-- The scanning loop of `detect_honeypot_patterns`: a comparison opcode
at `i` with `i + 2 < len`, a JUMPI at `i + 1`, and a REVERT within
positions `i + 2 .. i + 5`. -/
def honeypotScan : List Instruction → List Finding
  | a :: b :: c :: rest =>
    if comparisonOps.contains a.opcode && b.opcode == 0x57
        && ((c :: rest).take 4).any (fun j => j.opcode == 0xFD) then
      [honeypotFinding a.offset]
    else honeypotScan (b :: c :: rest)
  | _ => []

/-- The `detect_honeypot_patterns` detector: only active when a
transfer-related selector is present. -/
def detect_honeypot_patterns (instructions : List Instruction) : List Finding :=
  let selectors := extract_selectors instructions
  if selectors.contains [0xa9, 0x05, 0x9c, 0xbb]
      || selectors.contains [0x23, 0xb8, 0x72, 0xdd] then
    honeypotScan instructions
  else []

/-- Python `str.lower` on an ASCII character. -/
def lowerChar (c : Char) : Char :=
  if 'A' ≤ c ∧ c ≤ 'Z' then Char.ofNat (c.toNat + 32) else c

/-- Python `str.lower` (ASCII range, the only one used by signatures). -/
def lowerStr (s : String) : String := String.mk (s.data.map lowerChar)

/-- Does `hay` start with `needle`, on character lists. -/
def listStartsWith : List Char → List Char → Bool
  | [], _ => true
  | _ :: _, [] => false
  | n :: ns, h :: hs => n == h && listStartsWith ns hs

/-- Python substring containment `needle in hay`, on character lists. -/
def containsSub (needle : List Char) : List Char → Bool
  | [] => needle.isEmpty
  | h :: hs => listStartsWith needle (h :: hs) || containsSub needle hs

/-- Python `needle in hay` on strings. -/
def strContains (hay needle : String) : Bool := containsSub needle.data hay.data

/-- The `detect_hidden_mint` detector: malicious selectors whose
lowercased signature contains "mint". -/
def detect_hidden_mint (instructions : List Instruction) : List Finding :=
  let selectors := extract_selectors instructions
  let malicious := find_malicious_selectors selectors
  let mint_selectors := malicious.filter (fun p => strContains (lowerStr p.2) "mint")
  if mint_selectors.isEmpty then []
  else
    let sigs := String.intercalate ", " (mint_selectors.map (fun p => p.2))
    [⟨"hidden_mint", Severity.critical, "Hidden mint capability detected",
      s!"Contract contains mint function selectors ({sigs}) that could allow unlimited token minting.",
      25, none⟩]

/-- The fee-related substrings of `detect_fee_manipulation`. -/
def feeTerms : List String := ["fee", "tax", "maxtx", "maxwallet"]

/-- The `detect_fee_manipulation` detector: malicious selectors whose
lowercased signature contains a fee-related term. -/
def detect_fee_manipulation (instructions : List Instruction) : List Finding :=
  let selectors := extract_selectors instructions
  let malicious := find_malicious_selectors selectors
  let fee_selectors :=
    malicious.filter (fun p => feeTerms.any (fun t => strContains (lowerStr p.2) t))
  if fee_selectors.isEmpty then []
  else
    let sigs := String.intercalate ", " (fee_selectors.map (fun p => p.2))
    [⟨"fee_manipulation", Severity.high, "Fee/limit manipulation functions detected",
      s!"Contract contains functions ({sigs}) that allow the owner to change fees, taxes, or transaction limits.",
      15, none⟩]

/-- `run_all_detectors`: the seven detectors in their fixed order,
outputs concatenated. -/
def run_all_detectors (instructions : List Instruction) : List Finding :=
  detect_selfdestruct instructions
    ++ detect_delegatecall instructions
    ++ detect_reentrancy_risk instructions
    ++ detect_proxy_patterns instructions
    ++ detect_honeypot_patterns instructions
    ++ detect_hidden_mint instructions
    ++ detect_fee_manipulation instructions

/-! ## Delegatecall detector characterisation (claim C9) -/

theorem dcLoop_flag_true (is_proxy : Bool) : ∀ l, dcLoop is_proxy true l = [] := by
  intro l
  induction l with
  | nil => rfl
  | cons a rest ih => simp [dcLoop, ih]

theorem dcLoop_flag_false (is_proxy : Bool) (l : List Instruction) :
    dcLoop is_proxy false l =
      match l.find? (fun i => i.opcode == 0xF4) with
      | none => []
      | some i => [dcFinding is_proxy i.offset] := by
  induction l with
  | nil => rfl
  | cons a rest ih =>
    cases h : (a.opcode == 0xF4) with
    | true => simp [dcLoop, h, dcLoop_flag_true, List.find?_cons]
    | false => simp [dcLoop, h, List.find?_cons, ih]

/-- Claim C9 — delegatecall detector: `detect_delegatecall` emits at
most one finding; it emits a finding iff opcode 0xF4 occurs, at the
offset of the first occurrence; the finding has severity info and
points 10 when some PUSH32 operand equals one of the five known proxy
storage slot constants (`has_proxy_slots`), and severity high and
points 15 otherwise. -/
theorem detect_delegatecall_spec (instructions : List Instruction) :
    detect_delegatecall instructions =
      (match instructions.find? (fun i => i.opcode == 0xF4) with
       | none => []
       | some i => [dcFinding (has_proxy_slots instructions) i.offset]) ∧
    (detect_delegatecall instructions).length ≤ 1 ∧
    (detect_delegatecall instructions ≠ [] ↔ ∃ i ∈ instructions, i.opcode = 0xF4) ∧
    (∀ off, (dcFinding true off).severity = Severity.info ∧
      (dcFinding true off).points = 10 ∧ (dcFinding true off).detector = "delegatecall") ∧
    (∀ off, (dcFinding false off).severity = Severity.high ∧
      (dcFinding false off).points = 15 ∧ (dcFinding false off).detector = "delegatecall") := by
  refine ⟨dcLoop_flag_false _ _, ?_, ?_, fun off => ⟨rfl, rfl, rfl⟩, fun off => ⟨rfl, rfl, rfl⟩⟩
  · unfold detect_delegatecall
    rw [dcLoop_flag_false]
    cases hfind : instructions.find? (fun i => i.opcode == 0xF4) <;> simp
  · unfold detect_delegatecall
    rw [dcLoop_flag_false]
    cases hfind : instructions.find? (fun i => i.opcode == 0xF4) with
    | none =>
      simp only [ne_eq, not_true_eq_false, false_iff, not_exists]
      intro i hi
      obtain ⟨hmem, hop⟩ := hi
      have hnone := List.find?_eq_none.mp hfind i hmem
      simp [hop] at hnone
    | some i =>
      simp only [ne_eq, List.cons_ne_self]
      constructor
      · intro _
        exact ⟨i, List.mem_of_find?_eq_some hfind,
          by simpa using List.find?_some hfind⟩
      · intro _
        simp

/-! ## Scoring — `scoring.py` -/

/-- The `RiskLevel` enum of `scoring.py`. -/
inductive RiskLevel where
  | safe
  | low
  | medium
  | high
  | critical
  deriving DecidableEq, Repr

/-- The `CATEGORY_CAPS` dict: per-category point caps. -/
def CATEGORY_CAPS : List (String × Nat) :=
  [("selfdestruct", 30), ("hidden_mint", 25), ("honeypot", 25),
   ("fee_manipulation", 15), ("delegatecall", 15), ("proxy", 10),
   ("reentrancy", 10), ("suspicious_selector", 15), ("tiny_bytecode", 10),
   ("deployer_reputation", 10)]

/-- Python `CATEGORY_CAPS.get(cat, 100)`. -/
def capGet (c : String) : Nat := (CATEGORY_CAPS.lookup c).getD 100

def SUSPICIOUS_SELECTOR_POINTS : Nat := 5

/-- Python dict assignment `m[k] = v` on an insertion-ordered
association list: overwrite in place, or append a fresh key. -/
def setAssoc : List (String × Nat) → String → Nat → List (String × Nat)
  | [], k, v => [(k, v)]
  | (k', v') :: rest, k, v =>
    if k' = k then (k, v) :: rest else (k', v') :: setAssoc rest k v

/-- Python `m.get(k, 0)`. -/
def getAssoc : List (String × Nat) → String → Nat
  | [], _ => 0
  | (k', v) :: rest, k => if k' = k then v else getAssoc rest k

/-- Python `k in m` on dicts. -/
def hasKey : List (String × Nat) → String → Bool
  | [], _ => false
  | (k', _) :: rest, k => k' == k || hasKey rest k

/-- Python `sum(m.values())`. -/
def sumValues (m : List (String × Nat)) : Nat := (m.map (fun p => p.2)).sum

/-- The first loop of `compute_score` (also the scoring loop of
`_analyze_implementation` in `engine.py`): accumulate finding points per
detector, capping each bucket at `CATEGORY_CAPS.get(cat, 100)`. -/
def accumFindings (init : List (String × Nat)) (findings : List Finding) :
    List (String × Nat) :=
  findings.foldl
    (fun m f => setAssoc m f.detector (min (capGet f.detector) (getAssoc m f.detector + f.points)))
    init

/-- The `_score_to_level` function of `scoring.py` (imported by
`engine.py` under the name `score_to_level`). -/
def score_to_level (score : Nat) : RiskLevel :=
  if score ≤ 15 then RiskLevel.safe
  else if score ≤ 35 then RiskLevel.low
  else if score ≤ 55 then RiskLevel.medium
  else if score ≤ 75 then RiskLevel.high
  else RiskLevel.critical

/-- The `ScoreResult` dataclass. -/
structure ScoreResult where
  score : Nat
  level : RiskLevel
  category_scores : List (String × Nat)
  deriving DecidableEq, Repr

/-- The suspicious-selector step of `compute_score`: +5 per distinct
suspicious selector, capped at 15. -/
def susStep (m : List (String × Nat)) (instructions : List Instruction) :
    List (String × Nat) :=
  let suspicious := find_suspicious_selectors (extract_selectors instructions)
  if suspicious.isEmpty then m
  else
    setAssoc m "suspicious_selector"
      (min (suspicious.length * SUSPICIOUS_SELECTOR_POINTS) (capGet "suspicious_selector"))

/-- The tiny-bytecode step of `compute_score`: 10 points when the
decoded length is positive, below 200 bytes, and no proxy bucket
exists. -/
def tinyStep (m : List (String × Nat)) (bytecode_hex : String) :
    List (String × Nat) :=
  let h := pyStrip bytecode_hex.data
  let h := if h.take 2 = ['0', 'x'] ∨ h.take 2 = ['0', 'X'] then h.drop 2 else h
  let bytecode_len := h.length / 2
  if bytecode_len < 200 ∧ hasKey m "proxy" = false ∧ 0 < bytecode_len then
    setAssoc m "tiny_bytecode" (capGet "tiny_bytecode")
  else m

/-- The `compute_score` function of `scoring.py`. -/
def compute_score (findings : List Finding) (instructions : List Instruction)
    (bytecode_hex : String) : ScoreResult :=
  let category_points := tinyStep (susStep (accumFindings [] findings) instructions) bytecode_hex
  let total := min 100 (sumValues category_points)
  ⟨total, score_to_level total, category_points⟩

/-! ## Reputation detector — `reputation.py` -/

/-- The explorer API, as an oracle.  Each call of `reputation.py` maps
every failure (network, JSON, status 0, missing result, unparsable
count) to `None`; `none` here therefore covers both failure and
not-found, exactly as in the source. -/
structure ExplorerOracle where
  creator : String → Option (String × String)
  first_ts : String → Option Int
  tx_count : String → Option Int

def YOUNG_WALLET_DAYS : Nat := 7
def LOW_TX_COUNT : Nat := 5

/-- The `detect_deployer_reputation` function.  `now` is
`int(time.time())`; the wallet-age test `age_days < 7` on the exact
quotient is equivalent to `now - first_ts < 7 * 86400`, and the day
count printed in the description is Python `int()` truncation toward
zero. -/
def detect_deployer_reputation (E : ExplorerOracle) (now : Int)
    (address api_key : String) : List Finding :=
  if api_key = "" then []
  else
    match E.creator address with
    | none =>
      [⟨"deployer_reputation", Severity.info, "Contract creator not found on Basescan",
        "Could not determine the deployer of this contract. It may be very new or deployed via an unusual method.",
        3, none⟩]
    | some (deployer, _) =>
      let ageFindings :=
        match E.first_ts deployer with
        | some first_ts =>
          if now - first_ts < 7 * 86400 then
            let dshort := String.mk (deployer.data.take 10)
            let age_days := (now - first_ts).tdiv 86400
            [⟨"deployer_reputation", Severity.info, "Deployer wallet is very new",
              s!"Deployer {dshort}... is only {age_days} days old. Fresh wallets deploying contracts can be a scam signal.",
              5, none⟩]
          else []
        | none => []
      let txFindings :=
        match E.tx_count deployer with
        | some tx_count =>
          if tx_count < 5 then
            let dshort := String.mk (deployer.data.take 10)
            [⟨"deployer_reputation", Severity.info, "Deployer wallet has very few transactions",
              s!"Deployer {dshort}... has only {tx_count} transactions. Low-activity wallets deploying contracts can indicate disposable scam wallets.",
              5, none⟩]
          else []
        | none => []
      ageFindings ++ txFindings

/-! ## RPC client and engine — `rpc.py`, `engine.py` -/

/-- The `RPCError` exception of `rpc.py`. -/
structure RPCError where
  message : String
  code : Option Int := none
  deriving DecidableEq, Repr

/-- The JSON-RPC endpoint, as an oracle.  `get_code` and
`get_storage_at` of `rpc.py` are `lru_cache`d pure-looking calls keyed
by their arguments, so a fixed external endpoint is exactly a function
of those arguments. -/
structure ChainOracle where
  get_code : String → String → Except RPCError String
  get_storage_at : String → String → String → Except RPCError String

/-- The `ImplementationResult` dataclass of `engine.py`. -/
structure ImplementationResult where
  address : String
  bytecode_size : Nat
  findings : List Finding
  category_scores : List (String × Nat)
  deriving DecidableEq, Repr

/-- The `AnalysisResult` dataclass of `engine.py`. -/
structure AnalysisResult where
  address : String
  score : Nat
  level : RiskLevel
  findings : List Finding
  category_scores : List (String × Nat)
  bytecode_size : Nat
  implementation : Option ImplementationResult := none
  deriving DecidableEq, Repr

/-- The `_IMPL_SLOTS` priority list of `engine.py`: the three
implementation slots, admin slots excluded. -/
def IMPL_SLOTS : List (String × List Nat) :=
  [("EIP-1967", EIP_1967_IMPL_SLOT), ("EIP-1822", EIP_1822_SLOT),
   ("OpenZeppelin", OZ_IMPL_SLOT)]

/-- The `_ZERO_WORD` constant: 64 zero hex characters. -/
def ZERO_WORD : List Char := List.replicate 64 '0'

/-- Python `raw[2:] if raw.startswith("0x") else raw` (lowercase prefix
only, as in `engine.py`). -/
def strip0xLower (s : String) : List Char :=
  if s.data.take 2 = ['0', 'x'] then s.data.drop 2 else s.data

/-- Python `value[-40:]`: the last 40 characters, or the whole string
when it is shorter. -/
def last40 (v : List Char) : List Char := v.drop (v.length - 40)

/-- The slot loop of `resolve_implementation`: skip failed reads, skip
zero words, skip words whose low 20 bytes are all zero, and return
`"0x" ++ last 40 hex chars` of the first surviving word. -/
def resolveLoop (O : ChainOracle) (address rpc_url : String) :
    List (String × List Nat) → Option String
  | [] => none
  | (_, slot_bytes) :: rest =>
    match O.get_storage_at address ("0x" ++ String.mk (bytesToHex slot_bytes)) rpc_url with
    | .error _ => resolveLoop O address rpc_url rest
    | .ok raw =>
      let value := strip0xLower raw
      if value = [] ∨ value = ZERO_WORD ∨ value.all (fun c => c = '0') then
        resolveLoop O address rpc_url rest
      else
        let addr_hex := last40 value
        if addr_hex.all (fun c => c = '0') then resolveLoop O address rpc_url rest
        else some ("0x" ++ String.mk addr_hex)

/-- The `resolve_implementation` function of `engine.py`. -/
def resolve_implementation (O : ChainOracle) (address rpc_url : String) : Option String :=
  resolveLoop O address rpc_url IMPL_SLOTS

/-- Failure modes of `analyze_contract`: an `RPCError` raised by the
initial `get_code`, or a hex parse `ValueError` raised by `disassemble`
(the latter is not caught anywhere in `engine.py`). -/
inductive AnalysisError where
  | rpc (e : RPCError)
  | parse
  deriving DecidableEq, Repr

/-- The `_analyze_implementation` function of `engine.py`: `none` when
the implementation bytecode fetch fails or the code is empty; proxy
findings are stripped before prefixing with `impl_`. -/
def analyzeImplementation (O : ChainOracle) (impl_address rpc_url : String) :
    Except AnalysisError (Option ImplementationResult) :=
  match O.get_code impl_address rpc_url with
  | .error _ => .ok none
  | .ok bytecode_hex =>
    let hex_body := strip0xLower bytecode_hex
    let bytecode_size := hex_body.length / 2
    if bytecode_size = 0 then .ok none
    else
      match disassemble bytecode_hex with
      | none => .error .parse
      | some instructions =>
        let findings := (run_all_detectors instructions).filter
          (fun f => f.detector != "proxy")
        let prefixed_findings := findings.map (fun f =>
          ⟨"impl_" ++ f.detector, f.severity, f.title, f.description, f.points, f.offset⟩)
        let category_points := accumFindings [] findings
        .ok (some ⟨impl_address, bytecode_size, prefixed_findings, category_points⟩)

/-- The detector pass of `analyze_contract`: the seven structural
detectors extended with the deployer reputation findings. -/
def baseFindings (E : ExplorerOracle) (now : Int) (address api_key : String)
    (instructions : List Instruction) : List Finding :=
  run_all_detectors instructions
    ++ detect_deployer_reputation E now address api_key

/-- The proxy branch of `analyze_contract`: when a proxy finding exists,
resolve the implementation and analyze it; a failed resolution yields no
implementation. -/
def implBranch (O : ChainOracle) (address rpc_url : String) (is_proxy : Bool) :
    Except AnalysisError (Option ImplementationResult) :=
  if is_proxy then
    match resolve_implementation O address rpc_url with
    | some impl_address => analyzeImplementation O impl_address rpc_url
    | none => .ok none
  else .ok none

/-- The merge step of `analyze_contract`: add the implementation
category totals to the proxy score (saturating at 100), append the
`impl_`-prefixed category entries and the implementation findings, and
re-derive the level. -/
def mergeResult (address : String) (bytecode_size : Nat) (findings : List Finding)
    (score_result : ScoreResult) (impl_result : Option ImplementationResult) :
    AnalysisResult :=
  let final_score :=
    match impl_result with
    | some impl => min 100 (score_result.score + sumValues impl.category_scores)
    | none => score_result.score
  let final_category_scores :=
    match impl_result with
    | some impl =>
      impl.category_scores.foldl (fun m p => setAssoc m ("impl_" ++ p.1) p.2)
        score_result.category_scores
    | none => score_result.category_scores
  ⟨address, final_score, score_to_level final_score,
    findings ++ (match impl_result with | some impl => impl.findings | none => []),
    final_category_scores, bytecode_size, impl_result⟩

/-- The `analyze_contract` function of `engine.py`: fetch, disassemble,
detect, score, optional proxy branch, merge. -/
def analyze_contract (O : ChainOracle) (E : ExplorerOracle) (now : Int)
    (address rpc_url : String) (basescan_api_key : String := "") :
    Except AnalysisError AnalysisResult :=
  match O.get_code address rpc_url with
  | .error e => .error (.rpc e)
  | .ok bytecode_hex =>
    let bytecode_size := (strip0xLower bytecode_hex).length / 2
    match disassemble bytecode_hex with
    | none => .error .parse
    | some instructions =>
      let findings := baseFindings E now address basescan_api_key instructions
      let score_result := compute_score findings instructions bytecode_hex
      let is_proxy := findings.any (fun f => f.detector == "proxy")
      match implBranch O address rpc_url is_proxy with
      | .error e => .error e
      | .ok impl_result =>
        .ok (mergeResult address bytecode_size findings score_result impl_result)

/-- Modelled from the spec: the analysis cache of the engine, keyed by
`(lowercase address, rpc_url, explorer_key)`.  The cache itself
(`_analysis_cache` with `clear_analysis_cache`) is referenced by the
repository's tests of `engine.py` but the cache code is not present
under `src/`; following the spec, a lookup hit returns the stored
`AnalysisResult` unchanged and a miss stores the freshly computed
result under the key. -/
def analyze_contract_cached (O : ChainOracle) (E : ExplorerOracle) (now : Int)
    (cache : List ((String × String × String) × AnalysisResult))
    (address rpc_url api_key : String) :
    Except AnalysisError
      (AnalysisResult × List ((String × String × String) × AnalysisResult)) :=
  let key := (lowerStr address, rpc_url, api_key)
  match cache.lookup key with
  | some r => .ok (r, cache)
  | none =>
    match analyze_contract O E now address rpc_url api_key with
    | .error e => .error e
    | .ok r => .ok (r, (key, r) :: cache)

/-! ## Association list lemmas for the scoring dictionaries -/

theorem getAssoc_setAssoc_self (m : List (String × Nat)) (k : String) (v : Nat) :
    getAssoc (setAssoc m k v) k = v := by
  induction m with
  | nil => simp [setAssoc, getAssoc]
  | cons p rest ih =>
    obtain ⟨k', v'⟩ := p
    by_cases h : k' = k
    · simp [setAssoc, getAssoc, h]
    · simp [setAssoc, getAssoc, h, ih]

theorem getAssoc_setAssoc_ne (m : List (String × Nat)) (k c : String) (v : Nat)
    (h : k ≠ c) : getAssoc (setAssoc m k v) c = getAssoc m c := by
  induction m with
  | nil => simp [setAssoc, getAssoc, h]
  | cons p rest ih =>
    obtain ⟨k', v'⟩ := p
    by_cases h2 : k' = k
    · subst h2
      simp [setAssoc, getAssoc, h]
    · simp [setAssoc, getAssoc, h2, ih]

theorem mem_setAssoc (m : List (String × Nat)) (k : String) (v : Nat) :
    ∀ p ∈ setAssoc m k v, p.1 = k ∨ p ∈ m := by
  induction m with
  | nil => simp [setAssoc]
  | cons q rest ih =>
    obtain ⟨k', v'⟩ := q
    intro p hp
    by_cases h : k' = k
    · simp only [setAssoc, if_pos h] at hp
      rcases List.mem_cons.mp hp with h1 | h1
      · exact Or.inl (by rw [h1])
      · exact Or.inr (List.mem_cons_of_mem _ h1)
    · simp only [setAssoc, if_neg h] at hp
      rcases List.mem_cons.mp hp with h1 | h1
      · exact Or.inr (by rw [h1]; exact List.mem_cons_self _ _)
      · rcases ih p h1 with h2 | h2
        · exact Or.inl h2
        · exact Or.inr (List.mem_cons_of_mem _ h2)

theorem hasKey_setAssoc (m : List (String × Nat)) (k : String) (v : Nat) (c : String) :
    hasKey (setAssoc m k v) c = (k == c || hasKey m c) := by
  induction m with
  | nil => simp [setAssoc, hasKey]
  | cons q rest ih =>
    obtain ⟨k', v'⟩ := q
    by_cases h : k' = k
    · subst h
      simp [setAssoc, hasKey]
    · simp only [setAssoc, if_neg h, hasKey, ih]
      cases hkc : (k' == c) <;> simp

theorem hasKey_false_of (m : List (String × Nat)) (k : String)
    (h : ∀ p ∈ m, p.1 ≠ k) : hasKey m k = false := by
  induction m with
  | nil => rfl
  | cons q rest ih =>
    obtain ⟨k', v'⟩ := q
    have h1 : k' ≠ k := h (k', v') (List.mem_cons_self _ _)
    simp only [hasKey, Bool.or_eq_false_iff]
    exact ⟨by simpa using h1, ih (fun p hp => h p (List.mem_cons_of_mem _ hp))⟩

theorem sumValues_nil : sumValues [] = 0 := rfl

theorem sumValues_cons (p : String × Nat) (m : List (String × Nat)) :
    sumValues (p :: m) = p.2 + sumValues m := by
  simp [sumValues]

theorem sumValues_setAssoc_fresh (m : List (String × Nat)) (k : String) (v : Nat)
    (h : hasKey m k = false) : sumValues (setAssoc m k v) = sumValues m + v := by
  induction m with
  | nil => simp [setAssoc, sumValues]
  | cons q rest ih =>
    obtain ⟨k', v'⟩ := q
    simp only [hasKey, Bool.or_eq_false_iff] at h
    have hne : k' ≠ k := by simpa using h.1
    rw [show setAssoc ((k', v') :: rest) k v = (k', v') :: setAssoc rest k v from by
      simp [setAssoc, hne]]
    rw [sumValues_cons, sumValues_cons, ih h.2]
    omega

theorem keys_nodup_setAssoc (m : List (String × Nat)) (k : String) (v : Nat)
    (h : (m.map (fun p => p.1)).Nodup) :
    ((setAssoc m k v).map (fun p => p.1)).Nodup := by
  induction m with
  | nil => simp [setAssoc]
  | cons q rest ih =>
    obtain ⟨k', v'⟩ := q
    simp only [List.map_cons, List.nodup_cons] at h
    by_cases hk : k' = k
    · subst hk
      have hset : setAssoc ((k', v') :: rest) k' v = (k', v) :: rest := by
        simp [setAssoc]
      rw [hset, List.map_cons, List.nodup_cons]
      exact h
    · simp only [setAssoc, if_neg hk, List.map_cons, List.nodup_cons]
      refine ⟨fun hmem => ?_, ih h.2⟩
      rcases List.mem_map.mp hmem with ⟨p, hp, hpk⟩
      rcases mem_setAssoc rest k v p hp with h1 | h1
      · exact hk (by rw [← hpk, h1])
      · exact h.1 (hpk ▸ List.mem_map_of_mem _ h1)

/-! ## Accumulation of finding points (scoring.py first loop) -/

/-- Total points of the findings of one category. -/
def sumPoints (fs : List Finding) (c : String) : Nat :=
  ((fs.filter (fun f => f.detector == c)).map (fun f => f.points)).sum

theorem accumFindings_cons (m : List (String × Nat)) (f : Finding) (fs : List Finding) :
    accumFindings m (f :: fs) =
      accumFindings
        (setAssoc m f.detector (min (capGet f.detector) (getAssoc m f.detector + f.points)))
        fs := rfl

theorem getAssoc_accumFindings (findings : List Finding) :
    ∀ (m : List (String × Nat)) (c : String) (t : Nat),
      getAssoc m c = min (capGet c) t →
      getAssoc (accumFindings m findings) c = min (capGet c) (t + sumPoints findings c) := by
  induction findings with
  | nil =>
    intro m c t h
    simpa [accumFindings, sumPoints] using h
  | cons f fs ih =>
    intro m c t h
    rw [accumFindings_cons]
    by_cases hdc : f.detector = c
    · subst hdc
      have hnew : getAssoc
          (setAssoc m f.detector (min (capGet f.detector) (getAssoc m f.detector + f.points)))
          f.detector = min (capGet f.detector) (t + f.points) := by
        rw [getAssoc_setAssoc_self, h]
        omega
      have hrec := ih _ f.detector (t + f.points) hnew
      rw [hrec]
      have hsum : sumPoints (f :: fs) f.detector = f.points + sumPoints fs f.detector := by
        simp [sumPoints]
      rw [hsum, Nat.add_assoc]
    · have hpre : getAssoc
          (setAssoc m f.detector (min (capGet f.detector) (getAssoc m f.detector + f.points)))
          c = getAssoc m c := getAssoc_setAssoc_ne _ _ _ _ hdc
      have hsum : sumPoints (f :: fs) c = sumPoints fs c := by
        simp [sumPoints, hdc]
      rw [hsum]
      exact ih _ c t (by rw [hpre]; exact h)

theorem mem_accumFindings (findings : List Finding) :
    ∀ (m : List (String × Nat)) (p : String × Nat), p ∈ accumFindings m findings →
      p.1 ∈ findings.map (fun f => f.detector) ∨ p ∈ m := by
  induction findings with
  | nil => intro m p hp; exact Or.inr hp
  | cons f fs ih =>
    intro m p hp
    rw [accumFindings_cons] at hp
    rcases ih _ p hp with h1 | h1
    · exact Or.inl (List.mem_cons_of_mem _ h1)
    · rcases mem_setAssoc _ _ _ p h1 with h2 | h2
      · exact Or.inl (by rw [List.map_cons, h2]; exact List.mem_cons_self _ _)
      · exact Or.inr h2

theorem keys_nodup_accumFindings (findings : List Finding) :
    ∀ (m : List (String × Nat)), (m.map (fun p => p.1)).Nodup →
      ((accumFindings m findings).map (fun p => p.1)).Nodup := by
  induction findings with
  | nil => intro m h; exact h
  | cons f fs ih =>
    intro m h
    rw [accumFindings_cons]
    exact ih _ (keys_nodup_setAssoc _ _ _ h)

/-! ## Characterisation of `compute_score` categories -/

theorem getAssoc_susStep (m : List (String × Nat)) (instrs : List Instruction)
    (c : String) (h : c ≠ "suspicious_selector") :
    getAssoc (susStep m instrs) c = getAssoc m c := by
  cases he : (find_suspicious_selectors (extract_selectors instrs)).isEmpty with
  | true => simp [susStep, he]
  | false => simp [susStep, he, getAssoc_setAssoc_ne _ _ _ _ (Ne.symm h)]

theorem getAssoc_tinyStep (m : List (String × Nat)) (hex : String) (c : String)
    (h : c ≠ "tiny_bytecode") : getAssoc (tinyStep m hex) c = getAssoc m c := by
  unfold tinyStep
  simp only []
  split
  all_goals split
  all_goals first
    | exact getAssoc_setAssoc_ne _ _ _ _ (Ne.symm h)
    | rfl

theorem mem_susStep (m : List (String × Nat)) (instrs : List Instruction)
    (p : String × Nat) (hp : p ∈ susStep m instrs) :
    p.1 = "suspicious_selector" ∨ p ∈ m := by
  unfold susStep at hp
  simp only [] at hp
  split at hp
  · exact Or.inr hp
  · exact mem_setAssoc _ _ _ p hp

theorem mem_tinyStep (m : List (String × Nat)) (hex : String)
    (p : String × Nat) (hp : p ∈ tinyStep m hex) :
    p.1 = "tiny_bytecode" ∨ p ∈ m := by
  unfold tinyStep at hp
  simp only [] at hp
  split at hp
  all_goals split at hp
  all_goals first
    | exact mem_setAssoc _ _ _ p hp
    | exact Or.inr hp

theorem keys_nodup_susStep (m : List (String × Nat)) (instrs : List Instruction)
    (h : (m.map (fun p => p.1)).Nodup) :
    ((susStep m instrs).map (fun p => p.1)).Nodup := by
  unfold susStep
  simp only []
  split
  · exact h
  · exact keys_nodup_setAssoc _ _ _ h

theorem keys_nodup_tinyStep (m : List (String × Nat)) (hex : String)
    (h : (m.map (fun p => p.1)).Nodup) :
    ((tinyStep m hex).map (fun p => p.1)).Nodup := by
  unfold tinyStep
  simp only []
  split
  all_goals split
  all_goals first
    | exact keys_nodup_setAssoc _ _ _ h
    | exact h

theorem compute_score_cats_eq (findings : List Finding) (instrs : List Instruction)
    (hex : String) (c : String) (h1 : c ≠ "suspicious_selector")
    (h2 : c ≠ "tiny_bytecode") :
    getAssoc (compute_score findings instrs hex).category_scores c
      = min (capGet c) (sumPoints findings c) := by
  have hbase : getAssoc ([] : List (String × Nat)) c = min (capGet c) 0 := by
    simp [getAssoc]
  have hacc := getAssoc_accumFindings findings [] c 0 hbase
  show getAssoc (tinyStep (susStep (accumFindings [] findings) instrs) hex) c = _
  rw [getAssoc_tinyStep _ _ _ h2, getAssoc_susStep _ _ _ h1, hacc, Nat.zero_add]

theorem compute_score_score_eq (f : List Finding) (i : List Instruction) (b : String) :
    (compute_score f i b).score
      = min 100 (sumValues (compute_score f i b).category_scores) := rfl

theorem compute_score_level_eq (f : List Finding) (i : List Instruction) (b : String) :
    (compute_score f i b).level = score_to_level (compute_score f i b).score := rfl

theorem mem_compute_score_cats (f : List Finding) (i : List Instruction) (b : String)
    (p : String × Nat) (hp : p ∈ (compute_score f i b).category_scores) :
    p.1 ∈ f.map (fun x => x.detector)
      ∨ p.1 = "suspicious_selector" ∨ p.1 = "tiny_bytecode" := by
  have hp2 : p ∈ tinyStep (susStep (accumFindings [] f) i) b := hp
  rcases mem_tinyStep _ _ p hp2 with h | h
  · exact Or.inr (Or.inr h)
  rcases mem_susStep _ _ p h with h3 | h3
  · exact Or.inr (Or.inl h3)
  rcases mem_accumFindings f [] p h3 with h4 | h4
  · exact Or.inl h4
  · simp at h4

theorem keys_nodup_compute_score (f : List Finding) (i : List Instruction) (b : String) :
    ((compute_score f i b).category_scores.map (fun p => p.1)).Nodup := by
  show ((tinyStep (susStep (accumFindings [] f) i) b).map (fun p => p.1)).Nodup
  exact keys_nodup_tinyStep _ _ (keys_nodup_susStep _ _
    (keys_nodup_accumFindings f [] (by simp)))

/-! ## Detector names of the seven detectors and reputation -/

theorem detect_selfdestruct_detector (instrs : List Instruction) (f : Finding)
    (h : f ∈ detect_selfdestruct instrs) : f.detector = "selfdestruct" := by
  unfold detect_selfdestruct at h
  cases hfind : instrs.find? (fun i => i.opcode == 0xFF) with
  | none => rw [hfind] at h; simp at h
  | some i => rw [hfind] at h; simp at h; rw [h]

theorem dcLoop_detector (isP : Bool) (l : List Instruction) :
    ∀ (flag : Bool) (f : Finding), f ∈ dcLoop isP flag l → f.detector = "delegatecall" := by
  induction l with
  | nil => intro flag f h; simp [dcLoop] at h
  | cons a rest ih =>
    intro flag f h
    unfold dcLoop at h
    by_cases hc : (a.opcode == 0xF4 && !flag) = true
    · rw [if_pos hc] at h
      rcases List.mem_cons.mp h with h1 | h1
      · rw [h1]
        unfold dcFinding
        split <;> rfl
      · exact ih true f h1
    · rw [if_neg hc] at h
      exact ih flag f h

theorem detect_delegatecall_detector (instrs : List Instruction) (f : Finding)
    (h : f ∈ detect_delegatecall instrs) : f.detector = "delegatecall" :=
  dcLoop_detector _ _ _ f h

theorem reentrancyScan_detector (l : List Instruction) :
    ∀ f ∈ reentrancyScan l, f.detector = "reentrancy" := by
  induction l with
  | nil => intro f h; simp [reentrancyScan] at h
  | cons a rest ih =>
    intro f h
    unfold reentrancyScan at h
    by_cases hc : (a.opcode == 0xF1) = true
    · rw [if_pos hc] at h
      cases hfind : (rest.take 20).find? (fun j => j.opcode == 0x55) with
      | none => rw [hfind] at h; exact ih f h
      | some j => rw [hfind] at h; simp at h; rw [h]
    · rw [if_neg hc] at h
      exact ih f h

theorem detect_reentrancy_risk_detector (instrs : List Instruction) (f : Finding)
    (h : f ∈ detect_reentrancy_risk instrs) : f.detector = "reentrancy" :=
  reentrancyScan_detector _ f h

theorem detect_proxy_patterns_detector (instrs : List Instruction) (f : Finding)
    (h : f ∈ detect_proxy_patterns instrs) : f.detector = "proxy" := by
  unfold detect_proxy_patterns at h
  split at h
  · simp at h; rw [h]
  · simp at h

theorem honeypotScan_detector (l : List Instruction) :
    ∀ f ∈ honeypotScan l, f.detector = "honeypot" := by
  induction l with
  | nil => intro f h; simp [honeypotScan] at h
  | cons a rest ih =>
    intro f h
    cases rest with
    | nil => simp [honeypotScan] at h
    | cons b rest2 =>
      cases rest2 with
      | nil => simp [honeypotScan] at h
      | cons c rest3 =>
        unfold honeypotScan at h
        split at h
        · simp at h; rw [h]; rfl
        · exact ih f h

theorem detect_honeypot_patterns_detector (instrs : List Instruction) (f : Finding)
    (h : f ∈ detect_honeypot_patterns instrs) : f.detector = "honeypot" := by
  unfold detect_honeypot_patterns at h
  simp only [] at h
  split at h
  · exact honeypotScan_detector _ f h
  · simp at h

theorem detect_hidden_mint_detector (instrs : List Instruction) (f : Finding)
    (h : f ∈ detect_hidden_mint instrs) : f.detector = "hidden_mint" := by
  unfold detect_hidden_mint at h
  simp only [] at h
  split at h
  · simp at h
  · simp at h; rw [h]

theorem detect_fee_manipulation_detector (instrs : List Instruction) (f : Finding)
    (h : f ∈ detect_fee_manipulation instrs) : f.detector = "fee_manipulation" := by
  unfold detect_fee_manipulation at h
  simp only [] at h
  split at h
  · simp at h
  · simp at h; rw [h]

theorem run_all_detectors_detector (instrs : List Instruction) (f : Finding)
    (h : f ∈ run_all_detectors instrs) :
    f.detector ∈ (["selfdestruct", "delegatecall", "reentrancy", "proxy",
      "honeypot", "hidden_mint", "fee_manipulation"] : List String) := by
  unfold run_all_detectors at h
  simp only [List.append_assoc, List.mem_append] at h
  rcases h with h | h | h | h | h | h | h
  · rw [detect_selfdestruct_detector _ _ h]; simp
  · rw [detect_delegatecall_detector _ _ h]; simp
  · rw [detect_reentrancy_risk_detector _ _ h]; simp
  · rw [detect_proxy_patterns_detector _ _ h]; simp
  · rw [detect_honeypot_patterns_detector _ _ h]; simp
  · rw [detect_hidden_mint_detector _ _ h]; simp
  · rw [detect_fee_manipulation_detector _ _ h]; simp

theorem detect_deployer_reputation_detector (E : ExplorerOracle) (now : Int)
    (address api_key : String) (f : Finding)
    (h : f ∈ detect_deployer_reputation E now address api_key) :
    f.detector = "deployer_reputation" := by
  unfold detect_deployer_reputation at h
  by_cases hk : api_key = ""
  · rw [if_pos hk] at h; simp at h
  · rw [if_neg hk] at h
    cases hcr : E.creator address with
    | none => rw [hcr] at h; simp at h; rw [h]
    | some pr =>
      obtain ⟨deployer, txh⟩ := pr
      rw [hcr] at h
      simp only [List.mem_append] at h
      rcases h with h | h
      · cases hts : E.first_ts deployer with
        | none => rw [hts] at h; simp at h
        | some ts =>
          rw [hts] at h
          simp at h
          rw [h.2]
      · cases htc : E.tx_count deployer with
        | none => rw [htc] at h; simp at h
        | some tc =>
          rw [htc] at h
          simp at h
          rw [h.2]

/-! ## The `impl_` category name space is disjoint from base categories -/

theorem implPrefix_inj (a b : String) (h : "impl_" ++ a = "impl_" ++ b) : a = b := by
  have hd : ("impl_" ++ a).data = ("impl_" ++ b).data := congrArg String.data h
  rw [String.data_append, String.data_append] at hd
  have h2 := List.append_cancel_left hd
  cases a with
  | mk da =>
    cases b with
    | mk db =>
      simp only [String.data] at h2
      rw [h2]

theorem appendImpl_ne (k c : String) (h : k.data.take 5 ≠ ['i', 'm', 'p', 'l', '_']) :
    "impl_" ++ c ≠ k := by
  intro he
  apply h
  rw [← he, String.data_append]
  rw [show (5 : Nat) = ("impl_".data).length from rfl, List.take_left]

/-- The ten category names that can appear in a proxy-pass
`category_scores` (seven detectors, reputation, two scorer
heuristics). -/
def BASE_CATEGORY_NAMES : List String :=
  ["selfdestruct", "delegatecall", "reentrancy", "proxy", "honeypot",
   "hidden_mint", "fee_manipulation", "deployer_reputation",
   "suspicious_selector", "tiny_bytecode"]

theorem baseFindings_detector (E : ExplorerOracle) (now : Int)
    (address api_key : String) (instrs : List Instruction) (f : Finding)
    (h : f ∈ baseFindings E now address api_key instrs) :
    f.detector ∈ BASE_CATEGORY_NAMES := by
  unfold baseFindings at h
  rcases List.mem_append.mp h with h1 | h1
  · have := run_all_detectors_detector instrs f h1
    simp only [BASE_CATEGORY_NAMES]
    simp at this
    rcases this with h2 | h2 | h2 | h2 | h2 | h2 | h2 <;> simp [h2]
  · rw [detect_deployer_reputation_detector _ _ _ _ f h1]
    simp [BASE_CATEGORY_NAMES]

theorem base_category_not_impl (k : String) (h : k ∈ BASE_CATEGORY_NAMES) :
    k.data.take 5 ≠ ['i', 'm', 'p', 'l', '_'] := by
  simp only [BASE_CATEGORY_NAMES] at h
  fin_cases h <;> decide

theorem base_cats_keys (E : ExplorerOracle) (now : Int) (address api_key : String)
    (instrs : List Instruction) (hex : String) (p : String × Nat)
    (hp : p ∈ (compute_score (baseFindings E now address api_key instrs) instrs hex).category_scores) :
    p.1 ∈ BASE_CATEGORY_NAMES := by
  rcases mem_compute_score_cats _ _ _ p hp with h | h | h
  · rcases List.mem_map.mp h with ⟨f, hf, hfd⟩
    exact hfd ▸ baseFindings_detector _ _ _ _ _ f hf
  · rw [h]; simp [BASE_CATEGORY_NAMES]
  · rw [h]; simp [BASE_CATEGORY_NAMES]

/-! ## Sum of category values after the impl merge -/

theorem sumValues_implFold (entries : List (String × Nat)) :
    ∀ (base : List (String × Nat)),
      (∀ e ∈ entries, hasKey base ("impl_" ++ e.1) = false) →
      (entries.map (fun p => p.1)).Nodup →
      sumValues (entries.foldl (fun m p => setAssoc m ("impl_" ++ p.1) p.2) base)
        = sumValues base + sumValues entries := by
  induction entries with
  | nil => intro base _ _; simp [sumValues]
  | cons e rest ih =>
    intro base hfresh hnodup
    obtain ⟨k, v⟩ := e
    simp only [List.foldl_cons]
    have h1 : hasKey base ("impl_" ++ k) = false :=
      hfresh (k, v) (List.mem_cons_self _ _)
    simp only [List.map_cons, List.nodup_cons] at hnodup
    have hfresh2 : ∀ e2 ∈ rest,
        hasKey (setAssoc base ("impl_" ++ k) v) ("impl_" ++ e2.1) = false := by
      intro e2 he2
      rw [hasKey_setAssoc]
      have hne : k ≠ e2.1 := by
        intro hkk
        exact hnodup.1 (hkk ▸ List.mem_map_of_mem _ he2)
      have hbeq : ("impl_" ++ k == "impl_" ++ e2.1) = false := by
        simp only [beq_eq_false_iff_ne, ne_eq]
        intro hcon
        exact hne (implPrefix_inj _ _ hcon)
      rw [hbeq, hfresh e2 (List.mem_cons_of_mem _ he2), Bool.or_self]
    rw [ih _ hfresh2 hnodup.2, sumValues_setAssoc_fresh _ _ _ h1, sumValues_cons]
    omega

/-! ## Shape lemmas for the engine stages -/

theorem mergeResult_none (a : String) (bs : Nat) (f : List Finding) (sr : ScoreResult) :
    mergeResult a bs f sr none
      = ⟨a, sr.score, score_to_level sr.score, f, sr.category_scores, bs, none⟩ := by
  simp [mergeResult]

theorem mergeResult_some (a : String) (bs : Nat) (f : List Finding) (sr : ScoreResult)
    (impl : ImplementationResult) :
    mergeResult a bs f sr (some impl)
      = ⟨a, min 100 (sr.score + sumValues impl.category_scores),
          score_to_level (min 100 (sr.score + sumValues impl.category_scores)),
          f ++ impl.findings,
          impl.category_scores.foldl (fun m p => setAssoc m ("impl_" ++ p.1) p.2)
            sr.category_scores,
          bs, some impl⟩ := rfl

theorem analyzeImplementation_ok_some (O : ChainOracle) (impl_address rpc_url : String)
    (impl : ImplementationResult)
    (h : analyzeImplementation O impl_address rpc_url = .ok (some impl)) :
    ∃ code instructions,
      O.get_code impl_address rpc_url = .ok code ∧
      disassemble code = some instructions ∧
      impl.address = impl_address ∧
      impl.bytecode_size = (strip0xLower code).length / 2 ∧
      (strip0xLower code).length / 2 ≠ 0 ∧
      impl.findings = ((run_all_detectors instructions).filter
          (fun f => f.detector != "proxy")).map (fun f =>
            ⟨"impl_" ++ f.detector, f.severity, f.title, f.description, f.points, f.offset⟩) ∧
      impl.category_scores = accumFindings []
        ((run_all_detectors instructions).filter (fun f => f.detector != "proxy")) := by
  unfold analyzeImplementation at h
  cases hc : O.get_code impl_address rpc_url with
  | error e => rw [hc] at h; simp at h
  | ok code =>
    rw [hc] at h
    simp only [] at h
    split at h
    · simp at h
    · rename_i hsz
      cases hd : disassemble code with
      | none => rw [hd] at h; simp at h
      | some instructions =>
        rw [hd] at h
        simp only [Except.ok.injEq, Option.some.injEq] at h
        refine ⟨code, instructions, rfl, hd, ?_, ?_, hsz, ?_, ?_⟩ <;> rw [← h]

theorem implBranch_ok_some (O : ChainOracle) (address u : String) (b : Bool)
    (impl : ImplementationResult) (h : implBranch O address u b = .ok (some impl)) :
    b = true ∧ ∃ a2, resolve_implementation O address u = some a2 ∧
      analyzeImplementation O a2 u = .ok (some impl) := by
  unfold implBranch at h
  cases b with
  | false => simp at h
  | true =>
    simp only [if_pos] at h
    cases hres : resolve_implementation O address u with
    | none => rw [hres] at h; simp at h
    | some a2 => rw [hres] at h; exact ⟨rfl, a2, rfl, h⟩

theorem analyze_contract_error_of_get_code (O : ChainOracle) (E : ExplorerOracle)
    (now : Int) (address rpc_url api_key : String) (e : RPCError)
    (h : O.get_code address rpc_url = .error e) :
    analyze_contract O E now address rpc_url api_key = .error (.rpc e) := by
  unfold analyze_contract
  rw [h]

theorem analyze_contract_ok_shape (O : ChainOracle) (E : ExplorerOracle) (now : Int)
    (address rpc_url api_key : String) (r : AnalysisResult)
    (h : analyze_contract O E now address rpc_url api_key = .ok r) :
    ∃ code instructions impl_result,
      O.get_code address rpc_url = .ok code ∧
      disassemble code = some instructions ∧
      implBranch O address rpc_url
        ((baseFindings E now address api_key instructions).any
          (fun f => f.detector == "proxy")) = .ok impl_result ∧
      r = mergeResult address ((strip0xLower code).length / 2)
            (baseFindings E now address api_key instructions)
            (compute_score (baseFindings E now address api_key instructions)
              instructions code)
            impl_result := by
  unfold analyze_contract at h
  cases hc : O.get_code address rpc_url with
  | error e => rw [hc] at h; simp at h
  | ok code =>
    rw [hc] at h
    simp only [] at h
    cases hd : disassemble code with
    | none => rw [hd] at h; simp at h
    | some instructions =>
      rw [hd] at h
      simp only [] at h
      cases hib : implBranch O address rpc_url
          ((baseFindings E now address api_key instructions).any
            (fun f => f.detector == "proxy")) with
      | error e => rw [hib] at h; simp at h
      | ok impl_result =>
        rw [hib] at h
        simp only [Except.ok.injEq] at h
        exact ⟨code, instructions, impl_result, rfl, hd, hib, h.symm⟩

/-- Core consequence of the merge step: the final score is the saturated
sum of the merged category values, and the level is re-derived from the
final score. -/
theorem analyze_ok_score_eq (O : ChainOracle) (E : ExplorerOracle) (now : Int)
    (address rpc_url api_key : String) (r : AnalysisResult)
    (h : analyze_contract O E now address rpc_url api_key = .ok r) :
    r.score = min 100 (sumValues r.category_scores) ∧
    r.level = score_to_level r.score := by
  obtain ⟨code, instructions, impl_result, hc, hd, hib, hr⟩ :=
    analyze_contract_ok_shape O E now address rpc_url api_key r h
  subst hr
  cases impl_result with
  | none =>
    rw [mergeResult_none]
    exact ⟨compute_score_score_eq _ _ _, rfl⟩
  | some impl =>
    rw [mergeResult_some]
    have hfresh : ∀ e ∈ impl.category_scores,
        hasKey (compute_score (baseFindings E now address api_key instructions)
          instructions code).category_scores ("impl_" ++ e.1) = false := by
      intro e _
      apply hasKey_false_of
      intro p hp
      have hbase := base_cats_keys E now address api_key instructions code p hp
      exact fun hpk =>
        (appendImpl_ne p.1 e.1 (base_category_not_impl _ hbase)) hpk.symm
    have hnodup : (impl.category_scores.map (fun p => p.1)).Nodup := by
      obtain ⟨-, a2, -, him⟩ := implBranch_ok_some _ _ _ _ _ hib
      obtain ⟨c2, i2, -, -, -, -, -, -, hcats⟩ :=
        analyzeImplementation_ok_some _ _ _ _ him
      rw [hcats]
      exact keys_nodup_accumFindings _ [] (by simp)
    have hsum := sumValues_implFold impl.category_scores _ hfresh hnodup
    have hsr := compute_score_score_eq (baseFindings E now address api_key instructions)
      instructions code
    constructor
    · show min 100 _ = min 100 (sumValues (List.foldl _ _ _))
      rw [hsum, hsr]
      omega
    · rfl

/-! ## Claims C4 and C5 — score bounds, level map, category caps -/

/-- A chain oracle for concrete instantiations: every address holds no
code and every storage slot is zero. -/
def wO : ChainOracle :=
  ⟨fun _ _ => .ok "0x", fun _ _ _ => .ok ("0x" ++ String.mk (List.replicate 64 '0'))⟩

/-- An explorer oracle for concrete instantiations: every lookup fails. -/
def wE : ExplorerOracle := ⟨fun _ => none, fun _ => none, fun _ => none⟩

/-- The analysis result of an EOA under `wO` and `wE`. -/
def eoaResult : AnalysisResult := ⟨"0xabc", 0, RiskLevel.safe, [], [], 0, none⟩

/-- Claim C4 — score bounds and level map: every `compute_score` result
satisfies `score ≤ 100` (score is a ℕ here, as every finding carries
nonnegative points, so `0 ≤ score` holds by construction); the level is
the pure piecewise function of the score (≤ 15 safe, ≤ 35 low, ≤ 55
medium, ≤ 75 high, else critical); and the same bound and level
derivation hold for the merged score of every successful
`analyze_contract` result. -/
theorem score_bounds_and_level :
    (∀ (findings : List Finding) (instrs : List Instruction) (hex : String),
       (compute_score findings instrs hex).score ≤ 100 ∧
       (compute_score findings instrs hex).level
         = score_to_level (compute_score findings instrs hex).score) ∧
    (∀ s : Nat,
       score_to_level s =
         if s ≤ 15 then RiskLevel.safe
         else if s ≤ 35 then RiskLevel.low
         else if s ≤ 55 then RiskLevel.medium
         else if s ≤ 75 then RiskLevel.high
         else RiskLevel.critical) ∧
    (∀ (O : ChainOracle) (E : ExplorerOracle) (now : Int)
       (address rpc_url api_key : String) (r : AnalysisResult),
       analyze_contract O E now address rpc_url api_key = .ok r →
       r.score ≤ 100 ∧ r.level = score_to_level r.score) := by
  refine ⟨?_, ?_, ?_⟩
  · intro findings instrs hex
    exact ⟨Nat.min_le_left _ _, rfl⟩
  · intro s
    rfl
  · intro O E now address rpc_url api_key r h
    obtain ⟨heq, hlvl⟩ := analyze_ok_score_eq O E now address rpc_url api_key r h
    exact ⟨by omega, hlvl⟩

/-- Witness for C4 at a concrete oracle: an EOA analysis succeeds and
the bound and level equation hold for its result. -/
theorem score_bounds_and_level_witness :
    analyze_contract wO wE 0 "0xabc" "u" "" = .ok eoaResult ∧
    (eoaResult.score ≤ 100 ∧ eoaResult.level = score_to_level eoaResult.score) :=
  ⟨by rfl, score_bounds_and_level.2.2 wO wE 0 "0xabc" "u" "" eoaResult (by rfl)⟩

/-- Counterexample to claim C5 as stated: the `ScoreResult` of
`compute_score [] [] "0x00"` (a one-byte bytecode with no findings)
contains the category `tiny_bytecode` with value 10, while the claimed
formula `min(cap[c], Σ points of the findings of c)` gives
`min(10, 0) = 0`: the tiny-bytecode heuristic bucket does not follow
the per-category finding formula. -/
theorem category_formula_cex :
    getAssoc (compute_score [] [] "0x00").category_scores "tiny_bytecode" = 10 ∧
    min (capGet "tiny_bytecode") (sumPoints [] "tiny_bytecode") = 0 ∧
    getAssoc (compute_score [] [] "0x00").category_scores "tiny_bytecode"
      ≠ min (capGet "tiny_bytecode") (sumPoints [] "tiny_bytecode") := by
  decide

theorem getAssoc_zero_of_keys (m : List (String × Nat)) (k : String)
    (h : ∀ p ∈ m, p.1 ≠ k) : getAssoc m k = 0 := by
  induction m with
  | nil => rfl
  | cons q rest ih =>
    obtain ⟨k2, v2⟩ := q
    have h1 : k2 ≠ k := h (k2, v2) (List.mem_cons_self _ _)
    simp only [getAssoc, if_neg h1]
    exact ih (fun p hp => h p (List.mem_cons_of_mem _ hp))

theorem sumPoints_append (fs1 fs2 : List Finding) (c : String) :
    sumPoints (fs1 ++ fs2) c = sumPoints fs1 c + sumPoints fs2 c := by
  simp [sumPoints, List.filter_append]

theorem sumPoints_cons_pos (f : Finding) (fs : List Finding) (c : String)
    (h : f.detector = c) : sumPoints (f :: fs) c = f.points + sumPoints fs c := by
  simp [sumPoints, h]

theorem sumPoints_cons_neg (f : Finding) (fs : List Finding) (c : String)
    (h : f.detector ≠ c) : sumPoints (f :: fs) c = sumPoints fs c := by
  simp [sumPoints, h]

theorem sumPoints_zero_of (fs : List Finding) (c : String)
    (h : ∀ f ∈ fs, f.detector ≠ c) : sumPoints fs c = 0 := by
  induction fs with
  | nil => rfl
  | cons f rest ih =>
    rw [sumPoints_cons_neg f rest c (h f (List.mem_cons_self _ _))]
    exact ih (fun g hg => h g (List.mem_cons_of_mem _ hg))

theorem sumPoints_prefixed (fs : List Finding) (c : String) :
    sumPoints (fs.map (fun f =>
        (⟨"impl_" ++ f.detector, f.severity, f.title, f.description,
          f.points, f.offset⟩ : Finding))) ("impl_" ++ c)
      = sumPoints fs c := by
  induction fs with
  | nil => rfl
  | cons f rest ih =>
    rw [List.map_cons]
    by_cases h : f.detector = c
    · rw [sumPoints_cons_pos _ _ _ (by simp [h]), sumPoints_cons_pos f rest c h, ih]
    · rw [sumPoints_cons_neg _ _ _ (fun hcon => h (implPrefix_inj _ _ hcon)),
        sumPoints_cons_neg f rest c h, ih]

theorem getAssoc_implFold_non_impl (entries : List (String × Nat)) :
    ∀ (base : List (String × Nat)) (c : String),
      c.data.take 5 ≠ ['i', 'm', 'p', 'l', '_'] →
      getAssoc (entries.foldl (fun m p => setAssoc m ("impl_" ++ p.1) p.2) base) c
        = getAssoc base c := by
  induction entries with
  | nil => intro base c _; rfl
  | cons e rest ih =>
    intro base c hc
    obtain ⟨k, v⟩ := e
    simp only [List.foldl_cons]
    rw [ih _ c hc, getAssoc_setAssoc_ne _ _ _ _ (appendImpl_ne c k hc)]

theorem getAssoc_implFold_not_mem (entries : List (String × Nat)) :
    ∀ (base : List (String × Nat)) (c : String),
      c ∉ entries.map (fun p => p.1) →
      getAssoc (entries.foldl (fun m p => setAssoc m ("impl_" ++ p.1) p.2) base)
          ("impl_" ++ c)
        = getAssoc base ("impl_" ++ c) := by
  induction entries with
  | nil => intro base c _; rfl
  | cons e rest ih =>
    intro base c hc
    obtain ⟨k, v⟩ := e
    simp only [List.map_cons, List.mem_cons, not_or] at hc
    simp only [List.foldl_cons]
    rw [ih _ c hc.2, getAssoc_setAssoc_ne]
    intro hcon
    exact hc.1 (implPrefix_inj _ _ hcon).symm

theorem getAssoc_implFold (entries : List (String × Nat)) :
    ∀ (base : List (String × Nat)) (c : String),
      getAssoc base ("impl_" ++ c) = 0 →
      (entries.map (fun p => p.1)).Nodup →
      getAssoc (entries.foldl (fun m p => setAssoc m ("impl_" ++ p.1) p.2) base)
          ("impl_" ++ c)
        = getAssoc entries c := by
  induction entries with
  | nil => intro base c h0 _; simpa [getAssoc] using h0
  | cons e rest ih =>
    intro base c h0 hnodup
    obtain ⟨k, v⟩ := e
    simp only [List.map_cons, List.nodup_cons] at hnodup
    simp only [List.foldl_cons]
    by_cases hkc : k = c
    · subst hkc
      rw [getAssoc_implFold_not_mem rest _ k hnodup.1, getAssoc_setAssoc_self]
      simp [getAssoc]
    · have h0b : getAssoc (setAssoc base ("impl_" ++ k) v) ("impl_" ++ c) = 0 := by
        rw [getAssoc_setAssoc_ne _ _ _ _ (fun hcon => hkc (implPrefix_inj _ _ hcon))]
        exact h0
      rw [ih _ c h0b hnodup.2]
      simp [getAssoc, hkc]

theorem base_cats_not_implKey (E : ExplorerOracle) (now : Int)
    (address api_key : String) (instrs : List Instruction) (hex : String)
    (c : String) :
    getAssoc (compute_score (baseFindings E now address api_key instrs)
      instrs hex).category_scores ("impl_" ++ c) = 0 := by
  apply getAssoc_zero_of_keys
  intro p hp
  exact Ne.symm (appendImpl_ne p.1 c
    (base_category_not_impl _ (base_cats_keys E now address api_key instrs hex p hp)))

theorem baseFindings_sumPoints_implKey (E : ExplorerOracle) (now : Int)
    (address api_key : String) (instrs : List Instruction) (c : String) :
    sumPoints (baseFindings E now address api_key instrs) ("impl_" ++ c) = 0 := by
  apply sumPoints_zero_of
  intro f hf
  exact Ne.symm (appendImpl_ne f.detector c
    (base_category_not_impl _ (baseFindings_detector E now address api_key instrs f hf)))

/-- Claim C5 (amended) — category caps and sum invariant: in every
`ScoreResult`, every category other than the two scorer heuristics
(`suspicious_selector`, whose value is `min(5 · distinct suspicious
selectors, 15)`, and `tiny_bytecode`, whose value is 10) has value
`min(cap[c], Σ points of that category's findings)` with fallback cap
100 for unknown categories.  In every merged `AnalysisResult` the same
formula holds over the merged findings list: every non-heuristic
category `c` outside the `impl_` name space has value
`min(cap[c], Σ points of the result's findings with detector c)`, and
every `impl_`-prefixed category `impl_c` has value
`min(cap[c], Σ points of the result's findings with detector impl_c)`
(the cap of the unprefixed category — the implementation pass is capped
before prefixing).  Finally `sum(category_scores.values()) ≥ score`
always, with equality except when the saturation at 100 clamps the
score, both for `ScoreResult` and for the merged result. -/
theorem category_caps_and_sum :
    (∀ (findings : List Finding) (instrs : List Instruction) (hex : String) (c : String),
       c ≠ "suspicious_selector" → c ≠ "tiny_bytecode" →
       getAssoc (compute_score findings instrs hex).category_scores c
         = min (capGet c) (sumPoints findings c)) ∧
    (∀ (findings : List Finding) (instrs : List Instruction) (hex : String),
       (compute_score findings instrs hex).score
           = min 100 (sumValues (compute_score findings instrs hex).category_scores) ∧
       sumValues (compute_score findings instrs hex).category_scores
           ≥ (compute_score findings instrs hex).score ∧
       (sumValues (compute_score findings instrs hex).category_scores ≤ 100 →
         (compute_score findings instrs hex).score
           = sumValues (compute_score findings instrs hex).category_scores)) ∧
    (∀ (O : ChainOracle) (E : ExplorerOracle) (now : Int)
       (address rpc_url api_key : String) (r : AnalysisResult),
       analyze_contract O E now address rpc_url api_key = .ok r →
       (r.score = min 100 (sumValues r.category_scores) ∧
        sumValues r.category_scores ≥ r.score ∧
        (sumValues r.category_scores ≤ 100 → r.score = sumValues r.category_scores)) ∧
       (∀ c : String, c.data.take 5 ≠ ['i', 'm', 'p', 'l', '_'] →
          c ≠ "suspicious_selector" → c ≠ "tiny_bytecode" →
          getAssoc r.category_scores c = min (capGet c) (sumPoints r.findings c)) ∧
       (∀ c : String,
          getAssoc r.category_scores ("impl_" ++ c)
            = min (capGet c) (sumPoints r.findings ("impl_" ++ c)))) := by
  refine ⟨fun f i b c h1 h2 => compute_score_cats_eq f i b c h1 h2, ?_, ?_⟩
  · intro f i b
    have h := compute_score_score_eq f i b
    refine ⟨h, ?_, ?_⟩ <;> omega
  · intro O E now address rpc_url api_key r h
    have heq := (analyze_ok_score_eq O E now address rpc_url api_key r h).1
    obtain ⟨code, instructions, impl_result, hc, hd, hib, hr⟩ :=
      analyze_contract_ok_shape O E now address rpc_url api_key r h
    refine ⟨⟨heq, ?_, ?_⟩, ?_, ?_⟩
    · omega
    · omega
    · subst hr
      cases impl_result with
      | none =>
        intro c hcimpl h1 h2
        show getAssoc (compute_score (baseFindings E now address api_key instructions)
            instructions code).category_scores c
          = min (capGet c) (sumPoints (baseFindings E now address api_key instructions ++ []) c)
        rw [List.append_nil]
        exact compute_score_cats_eq _ _ _ c h1 h2
      | some impl =>
        intro c hcimpl h1 h2
        obtain ⟨-, a2, -, him⟩ := implBranch_ok_some _ _ _ _ _ hib
        obtain ⟨icode, iinstr, -, -, -, -, -, hfnd, -⟩ :=
          analyzeImplementation_ok_some _ _ _ _ him
        show getAssoc (impl.category_scores.foldl (fun m p => setAssoc m ("impl_" ++ p.1) p.2)
            (compute_score (baseFindings E now address api_key instructions)
              instructions code).category_scores) c
          = min (capGet c)
              (sumPoints (baseFindings E now address api_key instructions ++ impl.findings) c)
        rw [getAssoc_implFold_non_impl _ _ _ hcimpl,
          compute_score_cats_eq _ _ _ c h1 h2, hfnd, sumPoints_append]
        have hz : sumPoints (((run_all_detectors iinstr).filter
            (fun f => f.detector != "proxy")).map (fun f =>
              (⟨"impl_" ++ f.detector, f.severity, f.title, f.description,
                f.points, f.offset⟩ : Finding))) c = 0 := by
          apply sumPoints_zero_of
          intro f hf
          rcases List.mem_map.mp hf with ⟨g, -, hgf⟩
          rw [← hgf]
          exact appendImpl_ne c g.detector hcimpl
        rw [hz, Nat.add_zero]
    · subst hr
      cases impl_result with
      | none =>
        intro c
        show getAssoc (compute_score (baseFindings E now address api_key instructions)
            instructions code).category_scores ("impl_" ++ c)
          = min (capGet c)
              (sumPoints (baseFindings E now address api_key instructions ++ []) ("impl_" ++ c))
        rw [List.append_nil, baseFindings_sumPoints_implKey, Nat.min_zero]
        exact base_cats_not_implKey E now address api_key instructions code c
      | some impl =>
        intro c
        obtain ⟨-, a2, -, him⟩ := implBranch_ok_some _ _ _ _ _ hib
        obtain ⟨icode, iinstr, -, -, -, -, -, hfnd, hcats⟩ :=
          analyzeImplementation_ok_some _ _ _ _ him
        show getAssoc (impl.category_scores.foldl (fun m p => setAssoc m ("impl_" ++ p.1) p.2)
            (compute_score (baseFindings E now address api_key instructions)
              instructions code).category_scores) ("impl_" ++ c)
          = min (capGet c)
              (sumPoints (baseFindings E now address api_key instructions ++ impl.findings)
                ("impl_" ++ c))
        have hnodup : (impl.category_scores.map (fun p => p.1)).Nodup := by
          rw [hcats]
          exact keys_nodup_accumFindings _ [] (by simp)
        rw [getAssoc_implFold _ _ _
            (base_cats_not_implKey E now address api_key instructions code c) hnodup,
          hcats,
          getAssoc_accumFindings ((run_all_detectors iinstr).filter
            (fun f => f.detector != "proxy")) [] c 0 (by simp [getAssoc]),
          Nat.zero_add, hfnd, sumPoints_append,
          baseFindings_sumPoints_implKey, Nat.zero_add, sumPoints_prefixed]

/-! ## Claims C2 and C10 — proxy implementation resolution -/

/-- Whether a stored word (hex chars, 0x already stripped) yields an
implementation address: its last 40 characters are not all zero. -/
def slotValueOk (v : List Char) : Bool := !(last40 v).all (fun c => c = '0')

theorem resolveLoop_characterisation (O : ChainOracle) (address u : String) :
    ∀ (slots : List (String × List Nat)),
      resolveLoop O address u slots =
        ((slots.filterMap (fun p =>
            match O.get_storage_at address ("0x" ++ String.mk (bytesToHex p.2)) u with
            | .ok raw => some (strip0xLower raw)
            | .error _ => none)).find? slotValueOk).map
          (fun v => "0x" ++ String.mk (last40 v)) := by
  intro slots
  induction slots with
  | nil => rfl
  | cons p rest ih =>
    obtain ⟨name, slot⟩ := p
    unfold resolveLoop
    cases hr : O.get_storage_at address ("0x" ++ String.mk (bytesToHex slot)) u with
    | error e =>
      simp only [List.filterMap_cons, hr]
      exact ih
    | ok raw =>
      simp only [List.filterMap_cons, hr]
      by_cases hz : ((last40 (strip0xLower raw)).all (fun c => c = '0')) = true
      · have hfind : (strip0xLower raw :: (rest.filterMap fun p =>
            match O.get_storage_at address ("0x" ++ String.mk (bytesToHex p.2)) u with
            | .ok raw => some (strip0xLower raw)
            | .error _ => none)).find? slotValueOk
            = (rest.filterMap fun p =>
                match O.get_storage_at address ("0x" ++ String.mk (bytesToHex p.2)) u with
                | .ok raw => some (strip0xLower raw)
                | .error _ => none).find? slotValueOk := by
          rw [List.find?_cons_of_neg]
          simp [slotValueOk, hz]
        rw [hfind, ← ih]
        by_cases h1 : strip0xLower raw = [] ∨ strip0xLower raw = ZERO_WORD
            ∨ (strip0xLower raw).all (fun c => c = '0')
        · rw [if_pos h1]
        · rw [if_neg h1, if_pos hz]
      · have hvtrue : slotValueOk (strip0xLower raw) = true := by
          simp [slotValueOk]
          simpa using hz
        have h1 : ¬(strip0xLower raw = [] ∨ strip0xLower raw = ZERO_WORD
            ∨ (strip0xLower raw).all (fun c => c = '0')) := by
          intro hcon
          apply hz
          rcases hcon with hc | hc | hc
          · rw [hc]; rfl
          · rw [hc]; decide
          · simp only [List.all_eq_true] at hc ⊢
            intro c hmem
            exact hc c (List.mem_of_mem_drop hmem)
        rw [if_neg h1, if_neg (by simpa using hz)]
        rw [List.find?_cons_of_pos _ hvtrue]
        rfl

/-- Claim C2 (amended) — proxy implementation resolution:
`resolve_implementation` consults exactly the three implementation
slots of `IMPL_SLOTS` in priority order (EIP-1967 impl, EIP-1822
PROXIABLE, pre-1967 OpenZeppelin impl; admin slots never appear); among
the successful reads, the first stored word whose low 20 bytes are not
all zero yields the returned address, namely `0x` followed by the last
40 hex characters of the stripped word — a word that is non-zero only
in its upper 12 bytes is skipped; if no read qualifies, the resolution
is `none`. -/
theorem resolve_implementation_characterisation (O : ChainOracle) (address u : String) :
    resolve_implementation O address u =
      ((IMPL_SLOTS.filterMap (fun p =>
          match O.get_storage_at address ("0x" ++ String.mk (bytesToHex p.2)) u with
          | .ok raw => some (strip0xLower raw)
          | .error _ => none)).find? slotValueOk).map
        (fun v => "0x" ++ String.mk (last40 v)) :=
  resolveLoop_characterisation O address u IMPL_SLOTS

/-- The EIP-1967 implementation slot key as sent over the wire. -/
def c2slot1 : String := "0x" ++ String.mk (bytesToHex EIP_1967_IMPL_SLOT)

/-- A stored word that is non-zero, but only in its upper 12 bytes. -/
def c2word1 : String := "0x01" ++ String.mk (List.replicate 62 '0')

/-- A stored word holding a plain address in its low 20 bytes. -/
def c2word2 : String :=
  "0x" ++ String.mk (List.replicate 24 '0') ++ String.mk (List.replicate 40 'b')

/-- An oracle whose EIP-1967 slot holds `c2word1` and whose remaining
slots hold `c2word2`. -/
def c2O : ChainOracle :=
  ⟨fun _ _ => .ok "0x",
   fun _ s _ => if s = c2slot1 then .ok c2word1 else .ok c2word2⟩

/-- Counterexample to claim C2 as stated: under `c2O` the first queried
slot (EIP-1967 impl) stores a non-zero 32-byte word, yet the resolved
implementation is not the low 20 bytes of that word — the word is
non-zero only in its upper bytes, so the code skips it and resolves
from the second slot instead. -/
theorem resolve_first_nonzero_cex :
    c2O.get_storage_at "0xabc" c2slot1 "u" = .ok c2word1 ∧
    ((strip0xLower c2word1).all (fun c => c = '0')) = false ∧
    resolve_implementation c2O "0xabc" "u"
      = some ("0x" ++ String.mk (List.replicate 40 'b')) ∧
    some ("0x" ++ String.mk (List.replicate 40 'b'))
      ≠ some ("0x" ++ String.mk (last40 (strip0xLower c2word1))) := by
  refine ⟨by rfl, by decide, by rfl, by decide⟩

/-- Claim C10 — `resolve_implementation` never returns the zero
address: provided each successful storage read returns a 32-byte word
(64 hex characters after the `0x` prefix, the `eth_getStorageAt`
contract), every returned address is `0x` followed by exactly 40 hex
characters, at least one of which is non-zero, taken as the low 20
bytes of the stored word of one of the three queried slots; slots whose
word is non-zero only in the upper 12 bytes are skipped by the
`addr_hex` check and resolution falls through. -/
theorem resolve_implementation_nonzero (O : ChainOracle) (address u : String)
    (hwf : ∀ s w, O.get_storage_at address s u = .ok w → (strip0xLower w).length = 64)
    (a : String) (h : resolve_implementation O address u = some a) :
    a.data.take 2 = ['0', 'x'] ∧
    a.data.length = 42 ∧
    (a.data.drop 2).length = 40 ∧
    ¬((a.data.drop 2).all (fun c => c = '0') = true) ∧
    ∃ slotName slotBytes w,
      (slotName, slotBytes) ∈ IMPL_SLOTS ∧
      O.get_storage_at address ("0x" ++ String.mk (bytesToHex slotBytes)) u = .ok w ∧
      a = "0x" ++ String.mk (last40 (strip0xLower w)) := by
  rw [resolve_implementation_characterisation] at h
  cases hfind : (IMPL_SLOTS.filterMap (fun p =>
      match O.get_storage_at address ("0x" ++ String.mk (bytesToHex p.2)) u with
      | .ok raw => some (strip0xLower raw)
      | .error _ => none)).find? slotValueOk with
  | none => rw [hfind] at h; simp at h
  | some v =>
    rw [hfind] at h
    simp only [Option.map_some', Option.some.injEq] at h
    have hvok : slotValueOk v = true := List.find?_some hfind
    have hvmem := List.mem_of_find?_eq_some hfind
    rcases List.mem_filterMap.mp hvmem with ⟨p, hpmem, hpv⟩
    obtain ⟨slotName, slotBytes⟩ := p
    cases hr : O.get_storage_at address ("0x" ++ String.mk (bytesToHex slotBytes)) u with
    | error e => rw [hr] at hpv; simp at hpv
    | ok w =>
      rw [hr] at hpv
      simp only [Option.some.injEq] at hpv
      have hwlen : (strip0xLower w).length = 64 := hwf _ _ hr
      have hvlen : v.length = 64 := by rw [← hpv]; exact hwlen
      have hvl40 : (last40 v).length = 40 := by
        unfold last40
        rw [List.length_drop, hvlen]
      have hadata : a.data = '0' :: 'x' :: last40 v := by
        rw [← h, String.data_append]
        rfl
      refine ⟨?_, ?_, ?_, ?_, slotName, slotBytes, w, hpmem, hr, by rw [← h, hpv]⟩
      · rw [hadata]; rfl
      · rw [hadata]; simp [hvl40]
      · rw [hadata]; simpa using hvl40
      · rw [hadata]
        simpa [slotValueOk] using hvok

/-- The stored word at every slot of the C10 witness oracle. -/
def c10word : String :=
  "0x" ++ String.mk (List.replicate 24 '0') ++ String.mk (List.replicate 40 'a')

/-- A chain oracle whose every storage slot holds `c10word`. -/
def c10O : ChainOracle :=
  ⟨fun _ _ => .ok "0x", fun _ _ _ => .ok c10word⟩

/-- Witness for C10 at a concrete oracle: `c10O` resolves to the
40-character address `0xaaa…a`, and the theorem's conclusions hold
there. -/
theorem resolve_implementation_nonzero_witness :
    (∀ s w, c10O.get_storage_at "0xabc" s "u" = .ok w → (strip0xLower w).length = 64) ∧
    resolve_implementation c10O "0xabc" "u"
      = some ("0x" ++ String.mk (List.replicate 40 'a')) ∧
    (("0x" ++ String.mk (List.replicate 40 'a')).data.take 2 = ['0', 'x'] ∧
     ("0x" ++ String.mk (List.replicate 40 'a')).data.length = 42 ∧
     (("0x" ++ String.mk (List.replicate 40 'a')).data.drop 2).length = 40 ∧
     ¬((("0x" ++ String.mk (List.replicate 40 'a')).data.drop 2).all
         (fun c => c = '0') = true) ∧
     ∃ slotName slotBytes w,
       (slotName, slotBytes) ∈ IMPL_SLOTS ∧
       c10O.get_storage_at "0xabc" ("0x" ++ String.mk (bytesToHex slotBytes)) "u" = .ok w ∧
       "0x" ++ String.mk (List.replicate 40 'a')
         = "0x" ++ String.mk (last40 (strip0xLower w))) :=
  ⟨fun s w hw => by injection hw with hw2; rw [← hw2]; decide,
   by rfl,
   resolve_implementation_nonzero c10O "0xabc" "u"
     (fun s w hw => by injection hw with hw2; rw [← hw2]; decide)
     ("0x" ++ String.mk (List.replicate 40 'a')) (by rfl)⟩

/-! ## Claim C3 — error propagation policy -/

theorem analyzeImplementation_error_fetch (O : ChainOracle) (a2 u : String)
    (e : RPCError) (h : O.get_code a2 u = .error e) :
    analyzeImplementation O a2 u = .ok none := by
  unfold analyzeImplementation
  rw [h]

theorem analyzeImplementation_zero_size (O : ChainOracle) (a2 u s : String)
    (h : O.get_code a2 u = .ok s) (hz : (strip0xLower s).length / 2 = 0) :
    analyzeImplementation O a2 u = .ok none := by
  unfold analyzeImplementation
  rw [h]
  simp only []
  rw [if_pos hz]

theorem analyzeImplementation_ok_exists (O : ChainOracle) (a2 u : String)
    (hhex : ∀ a u2 s, O.get_code a u2 = .ok s → (hexBytes s).isSome) :
    ∃ res, analyzeImplementation O a2 u = .ok res := by
  unfold analyzeImplementation
  cases hc : O.get_code a2 u with
  | error e => exact ⟨none, rfl⟩
  | ok code =>
    simp only []
    split
    · exact ⟨none, rfl⟩
    · cases hd : disassemble code with
      | none =>
        exfalso
        have hs := hhex a2 u code hc
        rw [disassemble_eq_hexBytes] at hd
        cases hb : hexBytes code with
        | none => rw [hb] at hs; simp at hs
        | some raw => rw [hb] at hd; simp at hd
      | some instructions =>
        exact ⟨_, rfl⟩

theorem implBranch_ok_exists (O : ChainOracle) (address u : String) (b : Bool)
    (hhex : ∀ a u2 s, O.get_code a u2 = .ok s → (hexBytes s).isSome) :
    ∃ res, implBranch O address u b = .ok res := by
  unfold implBranch
  cases b with
  | false => exact ⟨none, rfl⟩
  | true =>
    simp only [if_pos]
    cases hres : resolve_implementation O address u with
    | none => exact ⟨none, rfl⟩
    | some a2 => exact analyzeImplementation_ok_exists O a2 u hhex

theorem analyze_ok_of_get_code_ok (O : ChainOracle) (E : ExplorerOracle) (now : Int)
    (address rpc_url api_key code : String)
    (hhex : ∀ a u2 s, O.get_code a u2 = .ok s → (hexBytes s).isSome)
    (hc : O.get_code address rpc_url = .ok code) :
    ∃ instructions impl_result,
      disassemble code = some instructions ∧
      implBranch O address rpc_url
        ((baseFindings E now address api_key instructions).any
          (fun f => f.detector == "proxy")) = .ok impl_result ∧
      analyze_contract O E now address rpc_url api_key
        = .ok (mergeResult address ((strip0xLower code).length / 2)
            (baseFindings E now address api_key instructions)
            (compute_score (baseFindings E now address api_key instructions)
              instructions code)
            impl_result) := by
  have hs := hhex address rpc_url code hc
  have hd : ∃ instructions, disassemble code = some instructions := by
    rw [disassemble_eq_hexBytes]
    cases hb : hexBytes code with
    | none => rw [hb] at hs; simp at hs
    | some raw => exact ⟨_, rfl⟩
  obtain ⟨instructions, hd⟩ := hd
  obtain ⟨impl_result, hib⟩ := implBranch_ok_exists O address rpc_url
    ((baseFindings E now address api_key instructions).any
      (fun f => f.detector == "proxy")) hhex
  refine ⟨instructions, impl_result, hd, hib, ?_⟩
  unfold analyze_contract
  rw [hc]
  simp only []
  rw [hd]
  simp only []
  rw [hib]

/-- Claim C3 — error propagation policy: provided the RPC endpoint
returns well-formed hex bytecode on success (the `eth_getCode`
contract; a malformed response would be a parse error, a separate fatal
category in the spec), `analyze_contract` fails exactly when the
initial `get_code` for the requested address fails, with that same
error wrapped as an `RPCError`; on success the result's findings begin
with exactly the proxy-level findings (detector pass plus reputation),
and when no implementation is attached the result is exactly the
proxy-level result; failed storage reads on all three slots make
resolution return `none`, and a failed implementation fetch or a
zero-size implementation make the implementation analysis return
`none` — all swallowed, never failing the call. -/
theorem error_propagation_policy (O : ChainOracle) (E : ExplorerOracle) (now : Int)
    (address rpc_url api_key : String)
    (hhex : ∀ a u2 s, O.get_code a u2 = .ok s → (hexBytes s).isSome) :
    (∀ e, O.get_code address rpc_url = .error e →
       analyze_contract O E now address rpc_url api_key = .error (.rpc e)) ∧
    (∀ err, analyze_contract O E now address rpc_url api_key = .error err →
       ∃ e, err = AnalysisError.rpc e ∧ O.get_code address rpc_url = .error e) ∧
    (∀ code, O.get_code address rpc_url = .ok code →
       ∃ r instructions,
         analyze_contract O E now address rpc_url api_key = .ok r ∧
         disassemble code = some instructions ∧
         r.findings.take (baseFindings E now address api_key instructions).length
           = baseFindings E now address api_key instructions ∧
         (r.implementation = none →
            r = mergeResult address ((strip0xLower code).length / 2)
                  (baseFindings E now address api_key instructions)
                  (compute_score (baseFindings E now address api_key instructions)
                    instructions code) none)) ∧
    ((∀ p ∈ IMPL_SLOTS, ∃ e, O.get_storage_at address
        ("0x" ++ String.mk (bytesToHex p.2)) rpc_url = .error e) →
      resolve_implementation O address rpc_url = none) ∧
    (∀ a2 e2, O.get_code a2 rpc_url = .error e2 →
       analyzeImplementation O a2 rpc_url = .ok none) ∧
    (∀ a2 s2, O.get_code a2 rpc_url = .ok s2 → (strip0xLower s2).length / 2 = 0 →
       analyzeImplementation O a2 rpc_url = .ok none) := by
  refine ⟨?_, ?_, ?_, ?_, ?_, ?_⟩
  · intro e he
    exact analyze_contract_error_of_get_code O E now address rpc_url api_key e he
  · intro err herr
    cases hc : O.get_code address rpc_url with
    | error e =>
      have := analyze_contract_error_of_get_code O E now address rpc_url api_key e hc
      rw [this] at herr
      simp only [Except.error.injEq] at herr
      exact ⟨e, herr.symm, rfl⟩
    | ok code =>
      obtain ⟨instructions, impl_result, -, -, hok⟩ :=
        analyze_ok_of_get_code_ok O E now address rpc_url api_key code hhex hc
      rw [hok] at herr
      simp at herr
  · intro code hc
    obtain ⟨instructions, impl_result, hd, hib, hok⟩ :=
      analyze_ok_of_get_code_ok O E now address rpc_url api_key code hhex hc
    refine ⟨_, instructions, hok, hd, ?_, ?_⟩
    · cases impl_result with
      | none =>
        rw [mergeResult_none]
        simp [List.take_length]
      | some impl =>
        rw [mergeResult_some]
        simp only []
        rw [List.take_left]
    · intro hnone
      cases impl_result with
      | none => rfl
      | some impl =>
        rw [mergeResult_some] at hnone
        simp at hnone
  · intro hall
    rw [resolve_implementation_characterisation]
    have hnil : IMPL_SLOTS.filterMap (fun p =>
        match O.get_storage_at address ("0x" ++ String.mk (bytesToHex p.2)) rpc_url with
        | .ok raw => some (strip0xLower raw)
        | .error _ => none) = [] := by
      rw [List.filterMap_eq_nil_iff]
      intro p hp
      obtain ⟨e, he⟩ := hall p hp
      rw [he]
    rw [hnil]
    rfl
  · intro a2 e2 he
    exact analyzeImplementation_error_fetch O a2 rpc_url e2 he
  · intro a2 s2 hokc hz
    exact analyzeImplementation_zero_size O a2 rpc_url s2 hokc hz

/-- Witness for C3 at a concrete oracle: an EOA fetch succeeds and the
success clause of the policy holds there. -/
theorem error_propagation_policy_witness :
    wO.get_code "0xabc" "u" = .ok "0x" ∧
    (∃ r instructions,
       analyze_contract wO wE 0 "0xabc" "u" "" = .ok r ∧
       disassemble "0x" = some instructions ∧
       r.findings.take (baseFindings wE 0 "0xabc" "" instructions).length
         = baseFindings wE 0 "0xabc" "" instructions ∧
       (r.implementation = none →
          r = mergeResult "0xabc" ((strip0xLower "0x").length / 2)
                (baseFindings wE 0 "0xabc" "" instructions)
                (compute_score (baseFindings wE 0 "0xabc" "" instructions)
                  instructions "0x") none)) :=
  ⟨rfl, (error_propagation_policy wO wE 0 "0xabc" "u" ""
      (fun a u2 s h => by injection h with h2; rw [← h2]; decide)).2.2.1 "0x" rfl⟩

/-! ## Claim C6 — proxy merge non-duplication -/

/-- Claim C6 — proxy merge non-duplication: no finding of any
successful analysis ever has detector `impl_proxy`; and when an
implementation is attached, the merged findings are exactly the
proxy-pass findings followed by every implementation finding once, each
prefixed with `impl_`, the implementation findings being the non-proxy
detector findings of the implementation bytecode. -/
theorem proxy_merge_non_duplication (O : ChainOracle) (E : ExplorerOracle) (now : Int)
    (address rpc_url api_key : String) (r : AnalysisResult)
    (h : analyze_contract O E now address rpc_url api_key = .ok r) :
    (∀ f ∈ r.findings, f.detector ≠ "impl_proxy") ∧
    (∀ impl, r.implementation = some impl →
       ∃ code instructions icode iinstructions,
         O.get_code address rpc_url = .ok code ∧
         disassemble code = some instructions ∧
         r.findings = baseFindings E now address api_key instructions ++ impl.findings ∧
         O.get_code impl.address rpc_url = .ok icode ∧
         disassemble icode = some iinstructions ∧
         impl.findings = ((run_all_detectors iinstructions).filter
             (fun f => f.detector != "proxy")).map (fun f =>
               ⟨"impl_" ++ f.detector, f.severity, f.title, f.description,
                 f.points, f.offset⟩)) := by
  obtain ⟨code, instructions, impl_result, hc, hd, hib, hr⟩ :=
    analyze_contract_ok_shape O E now address rpc_url api_key r h
  subst hr
  constructor
  · intro f hf
    cases impl_result with
    | none =>
      rw [mergeResult_none] at hf
      have hbase := baseFindings_detector E now address api_key instructions f hf
      intro hcon
      rw [hcon] at hbase
      simp [BASE_CATEGORY_NAMES] at hbase
    | some impl =>
      rw [mergeResult_some] at hf
      rcases List.mem_append.mp hf with h1 | h1
      · have hbase := baseFindings_detector E now address api_key instructions f h1
        intro hcon
        rw [hcon] at hbase
        simp [BASE_CATEGORY_NAMES] at hbase
      · obtain ⟨-, a2, -, him⟩ := implBranch_ok_some _ _ _ _ _ hib
        obtain ⟨c2, i2, -, -, -, -, -, hfnd, -⟩ :=
          analyzeImplementation_ok_some _ _ _ _ him
        rw [hfnd] at h1
        rcases List.mem_map.mp h1 with ⟨g, hg, hgf⟩
        have hgp : (g.detector != "proxy") = true := (List.mem_filter.mp hg).2
        intro hcon
        rw [← hgf] at hcon
        have hcon2 : "impl_" ++ g.detector = "impl_" ++ "proxy" :=
          hcon.trans (by rfl)
        have hgd : g.detector = "proxy" := implPrefix_inj _ _ hcon2
        simp [hgd] at hgp
  · intro impl himpl
    cases impl_result with
    | none => rw [mergeResult_none] at himpl; simp at himpl
    | some impl2 =>
      rw [mergeResult_some] at himpl
      simp only [Option.some.injEq] at himpl
      subst himpl
      obtain ⟨-, a2, -, him⟩ := implBranch_ok_some _ _ _ _ _ hib
      obtain ⟨icode, iinstr, hic, hid, haddr, -, -, hfnd, -⟩ :=
        analyzeImplementation_ok_some _ _ _ _ him
      refine ⟨code, instructions, icode, iinstr, hc, hd, ?_, ?_, hid, hfnd⟩
      · rw [mergeResult_some]
      · rw [haddr]
        exact hic

/-- The proxy bytecode of the C6 witness: PUSH32 of the EIP-1967
implementation slot followed by DELEGATECALL. -/
def proxyCodeHex : String :=
  "0x" ++ "7f" ++ String.mk (bytesToHex EIP_1967_IMPL_SLOT) ++ "f4"

/-- The implementation address stored at the witness slots. -/
def implAddrStr : String := "0x" ++ String.mk (List.replicate 40 'a')

/-- Oracle for the C6 witness: the proxy address serves the proxy
bytecode, the implementation address serves bytecode with a
SELFDESTRUCT, and every slot holds the implementation address. -/
def c6O : ChainOracle :=
  ⟨fun a _ => if a = implAddrStr then .ok "0xff00" else .ok proxyCodeHex,
   fun _ _ _ => .ok c10word⟩

/-- The concrete analysis result of the C6 witness scenario. -/
def c6res : AnalysisResult :=
  (analyze_contract c6O wE 0 "0xcc" "u" "").toOption.getD eoaResult

/-- Witness for C5 (amended) at concrete inputs: the per-category
formula at category `selfdestruct` of an empty analysis, and the full
merged conclusions for the concrete proxy-with-implementation analysis
of the `c6O` scenario. -/
theorem category_caps_and_sum_witness :
    (("selfdestruct" : String) ≠ "suspicious_selector" ∧
      ("selfdestruct" : String) ≠ "tiny_bytecode" ∧
      getAssoc (compute_score [] [] "0x").category_scores "selfdestruct"
        = min (capGet "selfdestruct") (sumPoints [] "selfdestruct")) ∧
    (analyze_contract c6O wE 0 "0xcc" "u" "" = .ok c6res ∧
      ((c6res.score = min 100 (sumValues c6res.category_scores) ∧
        sumValues c6res.category_scores ≥ c6res.score ∧
        (sumValues c6res.category_scores ≤ 100 →
          c6res.score = sumValues c6res.category_scores)) ∧
       (∀ c : String, c.data.take 5 ≠ ['i', 'm', 'p', 'l', '_'] →
          c ≠ "suspicious_selector" → c ≠ "tiny_bytecode" →
          getAssoc c6res.category_scores c
            = min (capGet c) (sumPoints c6res.findings c)) ∧
       (∀ c : String,
          getAssoc c6res.category_scores ("impl_" ++ c)
            = min (capGet c) (sumPoints c6res.findings ("impl_" ++ c))))) :=
  ⟨⟨by decide, by decide,
      category_caps_and_sum.1 [] [] "0x" "selfdestruct" (by decide) (by decide)⟩,
   ⟨by rfl, category_caps_and_sum.2.2 c6O wE 0 "0xcc" "u" "" c6res (by rfl)⟩⟩

/-- Witness for C6: the proxy analysis under `c6O` succeeds with an
implementation attached, and the non-duplication conclusions hold. -/
theorem proxy_merge_non_duplication_witness :
    analyze_contract c6O wE 0 "0xcc" "u" "" = .ok c6res ∧
    ((∀ f ∈ c6res.findings, f.detector ≠ "impl_proxy") ∧
     (∀ impl, c6res.implementation = some impl →
        ∃ code instructions icode iinstructions,
          c6O.get_code "0xcc" "u" = .ok code ∧
          disassemble code = some instructions ∧
          c6res.findings = baseFindings wE 0 "0xcc" "" instructions ++ impl.findings ∧
          c6O.get_code impl.address "u" = .ok icode ∧
          disassemble icode = some iinstructions ∧
          impl.findings = ((run_all_detectors iinstructions).filter
              (fun f => f.detector != "proxy")).map (fun f =>
                ⟨"impl_" ++ f.detector, f.severity, f.title, f.description,
                  f.points, f.offset⟩))) :=
  ⟨by rfl, proxy_merge_non_duplication c6O wE 0 "0xcc" "u" "" c6res (by rfl)⟩

/-! ## Claim C7 — EOA analysis -/

theorem analyze_eq_of_steps (O : ChainOracle) (E : ExplorerOracle) (now : Int)
    (address rpc_url api_key code : String) (instructions : List Instruction)
    (impl_result : Option ImplementationResult)
    (hc : O.get_code address rpc_url = .ok code)
    (hd : disassemble code = some instructions)
    (hib : implBranch O address rpc_url
      ((baseFindings E now address api_key instructions).any
        (fun f => f.detector == "proxy")) = .ok impl_result) :
    analyze_contract O E now address rpc_url api_key
      = .ok (mergeResult address ((strip0xLower code).length / 2)
          (baseFindings E now address api_key instructions)
          (compute_score (baseFindings E now address api_key instructions)
            instructions code)
          impl_result) := by
  unfold analyze_contract
  rw [hc]
  simp only []
  rw [hd]
  simp only []
  rw [hib]

/-- Counterexample to claim C7 as stated: with an explorer key
configured, an address whose `get_code` is "0x" still receives a
deployer-reputation finding (creator not found, 3 points), so the
findings list is not empty and the score is 3, not 0. -/
theorem eoa_result_cex :
    wO.get_code "0xabc" "u" = .ok "0x" ∧
    (analyze_contract wO wE 0 "0xabc" "u" "k").map
      (fun r => (r.bytecode_size, r.score, r.findings.length)) = .ok (0, 3, 1) :=
  ⟨rfl, by rfl⟩

/-- Claim C7 (amended) — EOA result: for every address for which
`get_code` returns "0x" and with no explorer key configured (so the
reputation detector is silently disabled), `analyze_contract` succeeds
and returns `bytecode_size = 0`, an empty findings list, score 0, level
safe and no implementation. -/
theorem eoa_result (O : ChainOracle) (E : ExplorerOracle) (now : Int)
    (address rpc_url : String) (h : O.get_code address rpc_url = .ok "0x") :
    ∃ r, analyze_contract O E now address rpc_url "" = .ok r ∧
      r.bytecode_size = 0 ∧ r.findings = [] ∧ r.score = 0 ∧
      r.level = RiskLevel.safe ∧ r.implementation = none := by
  have hbase : baseFindings E now address "" [] = [] := rfl
  have hib : implBranch O address rpc_url
      ((baseFindings E now address "" []).any (fun f => f.detector == "proxy"))
        = .ok none := by
    rw [hbase]
    rfl
  have hres := analyze_eq_of_steps O E now address rpc_url "" "0x" [] none h rfl hib
  exact ⟨_, hres, rfl, rfl, rfl, rfl, rfl⟩

/-- Witness for C7 (amended) at a concrete oracle. -/
theorem eoa_result_witness :
    wO.get_code "0xabc" "u" = .ok "0x" ∧
    (∃ r, analyze_contract wO wE 0 "0xabc" "u" "" = .ok r ∧
       r.bytecode_size = 0 ∧ r.findings = [] ∧ r.score = 0 ∧
       r.level = RiskLevel.safe ∧ r.implementation = none) :=
  ⟨rfl, eoa_result wO wE 0 "0xabc" "u" rfl⟩

/-! ## Claim C8 — determinism of repeated analysis (spec-modelled cache) -/

/-- Claim C8 — determinism of repeated analysis: with the chain and
explorer oracles (and the clock) held fixed, a successful cached
analysis stores its result under the triple (lowercased address,
rpc_url, explorer_key); invoking `analyze_contract_cached` again with
the same triple and the resulting cache returns the bit-for-bit
identical `AnalysisResult`, served from the cache, leaving the cache
unchanged.  (The cache itself is modelled from the spec, see
`analyze_contract_cached`.) -/
theorem repeated_analysis_deterministic (O : ChainOracle) (E : ExplorerOracle)
    (now : Int) (cache0 : List ((String × String × String) × AnalysisResult))
    (address rpc_url api_key : String) (r : AnalysisResult)
    (cache1 : List ((String × String × String) × AnalysisResult))
    (h : analyze_contract_cached O E now cache0 address rpc_url api_key
      = .ok (r, cache1)) :
    cache1.lookup (lowerStr address, rpc_url, api_key) = some r ∧
    analyze_contract_cached O E now cache1 address rpc_url api_key
      = .ok (r, cache1) := by
  unfold analyze_contract_cached at h ⊢
  simp only [] at h ⊢
  cases hl : cache0.lookup (lowerStr address, rpc_url, api_key) with
  | some r0 =>
    rw [hl] at h
    simp only [Except.ok.injEq, Prod.mk.injEq] at h
    obtain ⟨hr, hcache⟩ := h
    subst hr
    subst hcache
    rw [hl]
    exact ⟨rfl, rfl⟩
  | none =>
    rw [hl] at h
    cases ha : analyze_contract O E now address rpc_url api_key with
    | error e => rw [ha] at h; simp at h
    | ok r2 =>
      rw [ha] at h
      simp only [Except.ok.injEq, Prod.mk.injEq] at h
      obtain ⟨hr, hcache⟩ := h
      subst hr
      subst hcache
      have hlk : (((lowerStr address, rpc_url, api_key), r2) :: cache0).lookup
          (lowerStr address, rpc_url, api_key) = some r2 := by
        simp [List.lookup]
      rw [hlk]
      exact ⟨rfl, rfl⟩

/-- The cache produced by the C8 witness run. -/
def c8cache : List ((String × String × String) × AnalysisResult) :=
  [(("0xabc", "u", ""), eoaResult)]

/-- Witness for C8 at a concrete oracle: the first cached analysis of
an EOA stores its result, and the repeat invocation is a cache hit
returning the identical result. -/
theorem repeated_analysis_deterministic_witness :
    analyze_contract_cached wO wE 0 [] "0xabc" "u" "" = .ok (eoaResult, c8cache) ∧
    (c8cache.lookup (lowerStr "0xabc", "u", "") = some eoaResult ∧
     analyze_contract_cached wO wE 0 c8cache "0xabc" "u" ""
       = .ok (eoaResult, c8cache)) :=
  ⟨by rfl, repeated_analysis_deterministic wO wE 0 [] "0xabc" "u" "" eoaResult c8cache
    (by rfl)⟩

end RiskApi
